import Mathlib

/-!
Verification of the two analytical engines of the repository:
`uv-stage-parser.py` (a forward-only stage classifier over UV debug
traces) and `uv-download-analyzer.py` (a download-timeline
reconstructor with overlap and parallelism computation).

The Python code is shallowly embedded: Python floats are modelled as
rationals (`ℚ`), Python `Optional` as `Option`, exceptions as
`Except Unit`, and the regular expressions of the source as explicit
pattern values interpreted by a small backtracking matcher
(`matchPats` / `searchFrom`) that mirrors the leftmost, greedy
semantics of `re.search` / `re.match` on the ASCII character classes
those patterns use.
-/

/-- Character class of a pattern element: a Boolean predicate on characters. -/
abbrev Cls := Char → Bool

/-- Class for the regex class `\d` (ASCII digits). -/
def isDigitC (c : Char) : Bool := '0' ≤ c && c ≤ '9'

/-- Class for the regex class `\s` (ASCII whitespace). -/
def isSpaceC (c : Char) : Bool :=
  c = ' ' || c = '\t' || c = '\n' || c = '\r' || c = '\x0b' || c = '\x0c'

/-- Class for the regex class `\w` (ASCII word characters). -/
def isWordC (c : Char) : Bool :=
  isDigitC c || ('a' ≤ c && c ≤ 'z') || ('A' ≤ c && c ≤ 'Z') || c = '_'

/-- Class for the regex classes `[\d.]` and `[0-9.]`. -/
def isDigitDotC (c : Char) : Bool := isDigitC c || c = '.'

/-- Class for the regex class `[a-f0-9]`. -/
def isHexLowerC (c : Char) : Bool := isDigitC c || ('a' ≤ c && c ≤ 'f')

/-- One element of a regular-expression pattern, covering exactly the
constructs used by the regexes of the two source files. `grpAcc` is an
internal state of the matcher (a capturing group that has already
consumed the accumulated characters), never used in a source pattern. -/
inductive Pat where
  /-- a literal string -/
  | lit : List Char → Pat
  /-- `c+` for a character class `c` (greedy, one or more) -/
  | plus : Cls → Pat
  /-- `c*` for a character class `c` (greedy, zero or more) -/
  | star : Cls → Pat
  /-- `c{n}`: exactly `n` characters of class `c` -/
  | rep : Nat → Cls → Pat
  /-- `(c+)`: a capturing group of one or more characters of class `c` -/
  | grp : Cls → Pat
  /-- an alternation of literal strings, leftmost alternative first -/
  | alts : List (List Char) → Pat
  /-- an optional literal (`s?`), greedy -/
  | opt : List Char → Pat
  /-- internal: a capturing group that already consumed `acc` -/
  | grpAcc : Cls → List Char → Pat

/-- Strips a literal from the front of the input, returning the rest. -/
def stripLit : List Char → List Char → Option (List Char)
  | [], cs => some cs
  | _, [] => none
  | a :: l, c :: cs => if c = a then stripLit l cs else none

/-- Consumes exactly `n` characters of class `f`, returning the rest. -/
def takeExact : Nat → Cls → List Char → Option (List Char)
  | 0, _, cs => some cs
  | _ + 1, _, [] => none
  | n + 1, f, c :: cs => if f c then takeExact n f cs else none

/-- Backtracking matcher with the leftmost, greedy semantics of Python
`re`: matches a pattern list against a prefix of the input (the rest of
the input is ignored once the pattern is exhausted), returning the
captured groups of the first match in Python's backtracking order
(greedy repetitions, leftmost alternatives first). The `fuel` argument
is only a structural-recursion device: every recursive call strictly
decreases `patsFuel pats + cs.length`, so the fuel chosen by
`matchPats` below is never exhausted. -/
def matchF : Nat → List Pat → List Char → Option (List (List Char))
  | 0, _, _ => none
  | _ + 1, [], _ => some []
  | fuel + 1, .lit l :: ps, cs =>
    match stripLit l cs with
    | some rest => matchF fuel ps rest
    | none => none
  | fuel + 1, .rep n f :: ps, cs =>
    match takeExact n f cs with
    | some rest => matchF fuel ps rest
    | none => none
  | fuel + 1, .opt l :: ps, cs =>
    (match stripLit l cs with
     | some rest => matchF fuel ps rest
     | none => none) <|> matchF fuel ps cs
  | fuel + 1, .alts ls :: ps, cs =>
    match ls with
    | [] => none
    | l :: ls' =>
      (match stripLit l cs with
       | some rest => matchF fuel ps rest
       | none => none) <|> matchF fuel (.alts ls' :: ps) cs
  | fuel + 1, .plus f :: ps, cs =>
    match cs with
    | [] => none
    | c :: r => if f c then matchF fuel (.star f :: ps) r else none
  | fuel + 1, .star f :: ps, cs =>
    match cs with
    | [] => matchF fuel ps []
    | c :: r =>
      (if f c then matchF fuel (.star f :: ps) r else none) <|>
        matchF fuel ps (c :: r)
  | fuel + 1, .grp f :: ps, cs =>
    match cs with
    | [] => none
    | c :: r => if f c then matchF fuel (.grpAcc f [c] :: ps) r else none
  | fuel + 1, .grpAcc f acc :: ps, cs =>
    match cs with
    | [] => (matchF fuel ps []).map (fun caps => acc :: caps)
    | c :: r =>
      (if f c then matchF fuel (.grpAcc f (acc ++ [c]) :: ps) r else none) <|>
        (matchF fuel ps (c :: r)).map (fun caps => acc :: caps)

/-- Fuel weight of one pattern element (an upper bound on how much it
can contribute to the matcher's call depth). -/
def patWeight : Pat → Nat
  | .alts ls => ls.length + 1
  | _ => 1

/-- Fuel weight of a pattern list. -/
def patsFuel (pats : List Pat) : Nat := (pats.map patWeight).sum

/-- Entry point of the matcher, with adequate fuel. -/
def matchPats (pats : List Pat) (cs : List Char) : Option (List (List Char)) :=
  matchF (patsFuel pats + cs.length + 1) pats cs

/-- Unanchored search (`re.search`): tries the pattern at each start
position, leftmost first. -/
def searchFrom (pats : List Pat) (cs : List Char) : Option (List (List Char)) :=
  matchPats pats cs <|>
    (match cs with
     | [] => none
     | _ :: r => searchFrom pats r)

/-- Boolean form of `searchFrom`. -/
def searchB (pats : List Pat) (s : String) : Bool := (searchFrom pats s.data).isSome

/-- Boolean form of anchored matching (patterns starting with `^`,
and `re.match`). -/
def matchB (pats : List Pat) (s : String) : Bool := (matchPats pats s.data).isSome

/-- Value of a digit string, as produced by Python `int` on a `\d+` capture. -/
def digitsToNat (l : List Char) : Nat :=
  l.foldl (fun a c => a * 10 + (c.toNat - '0'.toNat)) 0

/-! ## Stage classifier (`uv-stage-parser.py`) -/

/-- Major stages of the UV pip install process (11 stages, in the
order of the `UVStage` enum of `uv-stage-parser.py`). -/
inductive UVStage where
  | initializing
  | startup
  | resolution_setup
  | cache_checking_and_metadata
  | dependency_resolution
  | resolution_summary
  | installation_planning
  | package_downloads
  | package_preparation
  | installation
  | final_summary
deriving DecidableEq, Repr

/-- Position of a stage in the stage enumeration. -/
def UVStage.idx : UVStage → Nat
  | .initializing => 0
  | .startup => 1
  | .resolution_setup => 2
  | .cache_checking_and_metadata => 3
  | .dependency_resolution => 4
  | .resolution_summary => 5
  | .installation_planning => 6
  | .package_downloads => 7
  | .package_preparation => 8
  | .installation => 9
  | .final_summary => 10

/-- Regex `^\s+[\d.]+\w+\s+DEBUG\s+uv\s+uv\s+[\d.]+\s+\([a-f0-9]+\s+\d{4}-\d{2}-\d{2}\)` (anchored). -/
def startupPat : List Pat :=
  [.plus isSpaceC, .plus isDigitDotC, .plus isWordC, .plus isSpaceC,
   .lit ("DEBUG".data), .plus isSpaceC, .lit ("uv".data), .plus isSpaceC,
   .lit ("uv".data), .plus isSpaceC, .plus isDigitDotC, .plus isSpaceC,
   .lit ("(".data), .plus isHexLowerC, .plus isSpaceC,
   .rep 4 isDigitC, .lit ("-".data), .rep 2 isDigitC, .lit ("-".data),
   .rep 2 isDigitC, .lit (")".data)]

/-- Regex `DEBUG\s+uv_resolver::resolver\s+Solving\s+with\s+installed\s+Python\s+version:\s+[\d.]+`. -/
def resolverPat : List Pat :=
  [.lit ("DEBUG".data), .plus isSpaceC, .lit ("uv_resolver::resolver".data),
   .plus isSpaceC, .lit ("Solving".data), .plus isSpaceC, .lit ("with".data),
   .plus isSpaceC, .lit ("installed".data), .plus isSpaceC, .lit ("Python".data),
   .plus isSpaceC, .lit ("version:".data), .plus isSpaceC, .plus isDigitDotC]

/-- Regex `DEBUG\s+uv_client::cached_client\s+Found\s+fresh\s+response\s+for:\s+https://pypi\.org/simple/\w+/`. -/
def freshPat : List Pat :=
  [.lit ("DEBUG".data), .plus isSpaceC, .lit ("uv_client::cached_client".data),
   .plus isSpaceC, .lit ("Found".data), .plus isSpaceC, .lit ("fresh".data),
   .plus isSpaceC, .lit ("response".data), .plus isSpaceC, .lit ("for:".data),
   .plus isSpaceC, .lit ("https://pypi.org/simple/".data), .plus isWordC,
   .lit ("/".data)]

/-- Regex `uv_client::registry_client::parse_simple_api\s+package=\w+`. -/
def simpleApiPat : List Pat :=
  [.lit ("uv_client::registry_client::parse_simple_api".data), .plus isSpaceC,
   .lit ("package=".data), .plus isWordC]

/-- Regex `INFO\s+pubgrub::internal::partial_solution\s+add_decision:\s+Id::<PubGrubPackage>\((\d+)\)`. -/
def pubgrubFullPat : List Pat :=
  [.lit ("INFO".data), .plus isSpaceC, .lit ("pubgrub::internal::partial_solution".data),
   .plus isSpaceC, .lit ("add_decision:".data), .plus isSpaceC,
   .lit ("Id::<PubGrubPackage>(".data), .grp isDigitC, .lit (")".data)]

/-- Regex `Id::<PubGrubPackage>\((\d+)\)`. -/
def pubgrubIdPat : List Pat :=
  [.lit ("Id::<PubGrubPackage>(".data), .grp isDigitC, .lit (")".data)]

/-- Regex `^Resolved\s+\d+\s+packages?\s+in\s+[\d.]+\w+` (anchored). -/
def resolvedFullPat : List Pat :=
  [.lit ("Resolved".data), .plus isSpaceC, .plus isDigitC, .plus isSpaceC,
   .lit ("package".data), .opt ("s".data), .plus isSpaceC, .lit ("in".data),
   .plus isSpaceC, .plus isDigitDotC, .plus isWordC]

/-- Regex `Resolved\s+(\d+)\s+packages?`. -/
def resolvedCountPat : List Pat :=
  [.lit ("Resolved".data), .plus isSpaceC, .grp isDigitC, .plus isSpaceC,
   .lit ("package".data), .opt ("s".data)]

/-- Regex `DEBUG\s+uv_installer::plan\s+(Registry requirement|Requirement|Identified|Unnecessary)`. -/
def planPat : List Pat :=
  [.lit ("DEBUG".data), .plus isSpaceC, .lit ("uv_installer::plan".data),
   .plus isSpaceC,
   .alts [("Registry requirement".data), ("Requirement".data),
          ("Identified".data), ("Unnecessary".data)]]

/-- Regex `uv_installer::preparer::prepare\s+total=\d+`. -/
def preparePat : List Pat :=
  [.lit ("uv_installer::preparer::prepare".data), .plus isSpaceC,
   .lit ("total=".data), .plus isDigitC]

/-- Regex `uv_installer::installer::install_blocking\s+num_wheels=\d+`. -/
def installBlockingPat : List Pat :=
  [.lit ("uv_installer::installer::install_blocking".data), .plus isSpaceC,
   .lit ("num_wheels=".data), .plus isDigitC]

/-- Regex `^Prepared\s+\d+\s+packages?\s+in\s+[\d.]+\w+` (anchored). -/
def preparedFullPat : List Pat :=
  [.lit ("Prepared".data), .plus isSpaceC, .plus isDigitC, .plus isSpaceC,
   .lit ("package".data), .opt ("s".data), .plus isSpaceC, .lit ("in".data),
   .plus isSpaceC, .plus isDigitDotC, .plus isWordC]

/-- Regex `Prepared\s+(\d+)\s+packages?`. -/
def preparedCountPat : List Pat :=
  [.lit ("Prepared".data), .plus isSpaceC, .grp isDigitC, .plus isSpaceC,
   .lit ("package".data), .opt ("s".data)]

/-- Regex `^Installed\s+\d+\s+packages?\s+in\s+[\d.]+\w+` (anchored). -/
def installedFullPat : List Pat :=
  [.lit ("Installed".data), .plus isSpaceC, .plus isDigitC, .plus isSpaceC,
   .lit ("package".data), .opt ("s".data), .plus isSpaceC, .lit ("in".data),
   .plus isSpaceC, .plus isDigitDotC, .plus isWordC]

/-- Regex `Installed\s+(\d+)\s+packages?`. -/
def installedCountPat : List Pat :=
  [.lit ("Installed".data), .plus isSpaceC, .grp isDigitC, .plus isSpaceC,
   .lit ("package".data), .opt ("s".data)]

/-- State of `UVStageParser` (`uv-stage-parser.py`, `__init__`). -/
structure UVStageParser where
  current_stage : UVStage
  stage_history : List (UVStage × String)
  packages_resolved : Nat
  packages_prepared : Nat
  packages_installed : Nat
  seen_first_pubgrub_decision : Bool
deriving DecidableEq, Repr

/-- Initial state of the stage parser. -/
def UVStageParser.init : UVStageParser :=
  ⟨.initializing, [], 0, 0, 0, false⟩

/-- Stage-dispatch block of `UVStageParser.parse_line` (the `if`/`elif`
chain on `self.current_stage`): produces the updated parser before the
history-recording step. -/
def UVStageParser.applyRules (self : UVStageParser) (line : String) : UVStageParser :=
  match self.current_stage with
  | .initializing =>
    if matchB startupPat line then { self with current_stage := .startup } else self
  | .startup =>
    if searchB resolverPat line then { self with current_stage := .resolution_setup }
    else self
  | .resolution_setup =>
    if searchB freshPat line then
      { self with current_stage := .cache_checking_and_metadata }
    else if searchB simpleApiPat line then
      { self with current_stage := .cache_checking_and_metadata }
    else self
  | .cache_checking_and_metadata =>
    if searchB pubgrubFullPat line then
      match searchFrom pubgrubIdPat line.data with
      | some [g] =>
        if digitsToNat g ≠ 0 then
          if !self.seen_first_pubgrub_decision then
            { self with seen_first_pubgrub_decision := true,
                        current_stage := .dependency_resolution }
          else self
        else self
      | _ => self
    else self
  | .dependency_resolution =>
    if matchB resolvedFullPat line then
      let self :=
        match searchFrom resolvedCountPat line.data with
        | some [g] => { self with packages_resolved := digitsToNat g }
        | _ => self
      { self with current_stage := .resolution_summary }
    else self
  | .resolution_summary =>
    if searchB planPat line then { self with current_stage := .installation_planning }
    else self
  | .installation_planning =>
    if searchB preparePat line then { self with current_stage := .package_downloads }
    else if searchB installBlockingPat line then
      { self with current_stage := .installation }
    else self
  | .package_downloads =>
    if matchB preparedFullPat line then
      let self :=
        match searchFrom preparedCountPat line.data with
        | some [g] => { self with packages_prepared := digitsToNat g }
        | _ => self
      { self with current_stage := .package_preparation }
    else self
  | .package_preparation =>
    if searchB installBlockingPat line then { self with current_stage := .installation }
    else self
  | .installation =>
    if matchB installedFullPat line then
      let self :=
        match searchFrom installedCountPat line.data with
        | some [g] => { self with packages_installed := digitsToNat g }
        | _ => self
      { self with current_stage := .final_summary }
    else self
  | .final_summary => self

/-- `UVStageParser.parse_line`: applies the stage rules and records a
`StageTransition` in `stage_history` when the stage changed, returning
the new stage in that case (and `None` otherwise). -/
def UVStageParser.parse_line (self : UVStageParser) (line : String) :
    UVStageParser × Option UVStage :=
  let prev_stage := self.current_stage
  let self := self.applyRules line
  if prev_stage ≠ self.current_stage then
    ({ self with stage_history := self.stage_history ++ [(self.current_stage, line)] },
     some self.current_stage)
  else
    (self, none)

/-- Feeds a list of lines to the stage parser, in order (the per-line
loop of `main` in `uv-stage-parser.py`). -/
def runStageParser (lines : List String) : UVStageParser :=
  lines.foldl (fun s l => (s.parse_line l).1) UVStageParser.init

/-! ## Download timeline analyzer (`uv-download-analyzer.py`) -/

/-- Python truthiness of an `Optional[float]` (`None` and `0.0` are falsy). -/
def pyTruthyOptQ : Option ℚ → Bool
  | none => false
  | some q => q ≠ 0

/-- Validity and value of Python `float()` applied to a `[0-9.]+` capture:
defined exactly when the string has at least one digit and at most one
dot, in which case it denotes the usual decimal value. -/
def pyFloat? (g : List Char) : Option ℚ :=
  if (g.filter (fun c => c = '.')).length ≤ 1 && g.any isDigitC then
    let ip := g.takeWhile (fun c => c ≠ '.')
    let fp := (g.dropWhile (fun c => c ≠ '.')).drop 1
    some ((digitsToNat ip : ℚ) + (digitsToNat fp : ℚ) / ((10 : ℚ) ^ fp.length))
  else
    none

/-- The `DownloadEvent` dataclass. -/
structure DownloadEvent where
  timestamp : ℚ
  line_num : Nat
  package : String
  event_type : String
  stream_id : Nat
  size_mb : Option ℚ := none
deriving DecidableEq, Repr

/-- The `PackageDownload` dataclass. -/
structure PackageDownload where
  package : String
  stream_id : Nat
  start_time : ℚ
  start_line : Nat
  end_time : Option ℚ := none
  end_line : Option Nat := none
  size_mb : Option ℚ := none
  data_frames : Nat := 0
deriving DecidableEq, Repr

/-- Property `PackageDownload.duration_ms`. -/
def PackageDownload.duration_ms (d : PackageDownload) : Option ℚ :=
  match d.end_time with
  | some e => some ((e - d.start_time) * 1000)
  | none => none

/-- Property `PackageDownload.speed_mbps`: guarded by Python truthiness
of `duration_ms` and `size_mb` (`if self.duration_ms and self.size_mb:`). -/
def PackageDownload.speed_mbps (d : PackageDownload) : Option ℚ :=
  match d.duration_ms, d.size_mb with
  | some dur, some sz =>
    if dur ≠ 0 && sz ≠ 0 then some ((sz * 8) / (dur / 1000)) else none
  | _, _ => none

/-- Lookup in an insertion-ordered dictionary (Python `dict` access / `in`). -/
def dictGet {α : Type} (k : Nat) : List (Nat × α) → Option α
  | [] => none
  | (k', v) :: rest => if k' = k then some v else dictGet k rest

/-- Assignment in an insertion-ordered dictionary: replaces in place when
the key exists, appends otherwise (Python `d[k] = v`). -/
def dictSet {α : Type} (k : Nat) (v : α) : List (Nat × α) → List (Nat × α)
  | [] => [(k, v)]
  | (k', v') :: rest => if k' = k then (k, v) :: rest else (k', v') :: dictSet k v rest

/-- State of `UVDownloadAnalyzer` (`__init__`). -/
structure UVDownloadAnalyzer where
  events : List DownloadEvent
  downloads : List (Nat × PackageDownload)
  stream_to_package : List (Nat × String)
deriving DecidableEq, Repr

/-- Initial state of the download analyzer. -/
def UVDownloadAnalyzer.init : UVDownloadAnalyzer := ⟨[], [], []⟩

/-- Decidable equality for `Except` results (for evaluating the
embedding on concrete traces). -/
instance instDecEqExcept {ε α : Type} [DecidableEq ε] [DecidableEq α] :
    DecidableEq (Except ε α)
  | .error e, .error e' =>
    if h : e = e' then .isTrue (congrArg Except.error h)
    else .isFalse (fun hh => h (Except.error.inj hh))
  | .ok x, .ok y =>
    if h : x = y then .isTrue (congrArg Except.ok h)
    else .isFalse (fun hh => h (Except.ok.inj hh))
  | .error _, .ok _ => .isFalse (fun hh => Except.noConfusion hh)
  | .ok _, .error _ => .isFalse (fun hh => Except.noConfusion hh)

/-- ASCII lowercasing of one character (Python `str.lower` on the
word-class characters the `Downloading` capture can produce). -/
def asciiLowerChar (c : Char) : Char :=
  if 'A' ≤ c && c ≤ 'Z' then Char.ofNat (c.toNat + 32) else c

/-- ASCII lowercasing of a string. -/
def asciiLower (s : String) : String := String.mk (s.data.map asciiLowerChar)

/-- `UVDownloadAnalyzer._find_stream_for_package`: the static
package-name → stream-id table (`{'torch': 7, 'numpy': 11, 'scipy': 9}`,
keyed by the lowercased package name). -/
def find_stream_for_package (package : String) : Option Nat :=
  let p := asciiLower package
  if p = "torch" then some 7
  else if p = "numpy" then some 11
  else if p = "scipy" then some 9
  else none

/-- Regex `^\s*([0-9.]+)s` of `parse_timestamp` (used with `re.match`). -/
def timestampPat : List Pat := [.star isSpaceC, .grp isDigitDotC, .lit ("s".data)]

/-- Regex `Downloading (\w+) \(([0-9.]+)MiB\)`. -/
def downloadingPat : List Pat :=
  [.lit ("Downloading ".data), .grp isWordC, .lit (" (".data), .grp isDigitDotC,
   .lit ("MiB)".data)]

/-- Regex `frame=Data \{ stream_id: StreamId\((\d+)\)`. -/
def dataFramePat : List Pat :=
  [.lit ("frame=Data \x7b stream_id: StreamId(".data), .grp isDigitC, .lit (")".data)]

/-- Python `'END_STREAM' in line`. -/
def hasEndStream (line : String) : Bool :=
  (searchFrom [.lit ("END_STREAM".data)] line.data).isSome

/-- `UVDownloadAnalyzer.parse_timestamp`: extracts the leading elapsed
time; an error models the `ValueError` that `float()` raises on a
malformed capture such as `".."`. -/
def UVDownloadAnalyzer.parse_timestamp (line : String) : Except Unit (Option ℚ) :=
  match matchPats timestampPat line.data with
  | some [g] =>
    match pyFloat? g with
    | some q => .ok (some q)
    | none => .error ()
  | _ => .ok none

/-- Size-announcement block of `UVDownloadAnalyzer.parse_line` (the
`Downloading (\w+) \(([0-9.]+)MiB\)` handling, run before the
`if not timestamp: return` early return): registers a pending
`PackageDownload` with a zero start-time sentinel when the package is
found in the stream table. The error models `float()` raising on a
malformed size capture. -/
def UVDownloadAnalyzer.downloadAnnounce (self : UVDownloadAnalyzer)
    (line_num : Nat) (line : String) : Except Unit UVDownloadAnalyzer :=
  match searchFrom downloadingPat line.data with
  | some [pkg, szg] =>
    match pyFloat? szg with
    | none => .error ()
    | some size_mb =>
      match find_stream_for_package (String.mk pkg) with
      | some stream_id =>
        if stream_id ≠ 0 then
          .ok { self with
                stream_to_package :=
                  dictSet stream_id (String.mk pkg) self.stream_to_package,
                downloads := dictSet stream_id
                  { package := String.mk pkg, stream_id := stream_id,
                    start_time := 0, start_line := line_num,
                    size_mb := some size_mb }
                  self.downloads }
        else .ok self
      | none => .ok self
  | _ => .ok self

/-- Data-frame block of `UVDownloadAnalyzer.parse_line`, reached only
with a truthy timestamp `ts`: on a `frame=Data` line whose stream is a
known download, sets the start time (emitting a `start` event) on the
first data frame, counts data frames while the download is unended, and
on an `END_STREAM` flag sets the end time and emits an `end` event. -/
def UVDownloadAnalyzer.dataFrameStep (self : UVDownloadAnalyzer)
    (line_num : Nat) (line : String) (ts : ℚ) : UVDownloadAnalyzer :=
  match searchFrom dataFramePat line.data with
  | some [sg] =>
    let stream_id := digitsToNat sg
    match dictGet stream_id self.downloads with
    | none => self
    | some download =>
      let evs1 :=
        if download.start_time = 0 then
          self.events ++
            [{ timestamp := ts, line_num := line_num, package := download.package,
               event_type := "start", stream_id := stream_id,
               size_mb := download.size_mb }]
        else self.events
      let d1 :=
        if download.start_time = 0 then { download with start_time := ts }
        else download
      let d2 :=
        if pyTruthyOptQ d1.end_time = false then
          { d1 with data_frames := d1.data_frames + 1 }
        else d1
      let evs2 :=
        if hasEndStream line then
          evs1 ++
            [{ timestamp := ts, line_num := line_num, package := download.package,
               event_type := "end", stream_id := stream_id }]
        else evs1
      let d3 :=
        if hasEndStream line then
          { d2 with end_time := some ts, end_line := some line_num }
        else d2
      { self with events := evs2,
                  downloads := dictSet stream_id d3 self.downloads }
  | _ => self

/-- `UVDownloadAnalyzer.parse_line`: timestamp extraction, then the
size-announcement block, then the `if not timestamp: return` early
return (`None` and `0.0` are both falsy), then the data-frame block.
Exceptions propagate. -/
def UVDownloadAnalyzer.parse_line (self : UVDownloadAnalyzer)
    (line_num : Nat) (line : String) : Except Unit UVDownloadAnalyzer :=
  match UVDownloadAnalyzer.parse_timestamp line with
  | .error e => .error e
  | .ok timestamp =>
    match self.downloadAnnounce line_num line with
    | .error e => .error e
    | .ok self =>
      match timestamp with
      | none => .ok self
      | some ts =>
        if ts = 0 then .ok self
        else .ok (self.dataFrameStep line_num line ts)

/-- Feeds numbered lines to the download analyzer
(`UVDownloadAnalyzer.analyze_file`, with `enumerate(f, 1)`); an
exception on any line aborts the scan. -/
def runAnalyzerFrom (self : UVDownloadAnalyzer) (line_num : Nat) :
    List String → Except Unit UVDownloadAnalyzer
  | [] => .ok self
  | line :: rest =>
    match self.parse_line line_num line with
    | .error e => .error e
    | .ok st => runAnalyzerFrom st (line_num + 1) rest

/-- Runs the download analyzer on a whole trace. -/
def runAnalyzer (lines : List String) : Except Unit UVDownloadAnalyzer :=
  runAnalyzerFrom UVDownloadAnalyzer.init 1 lines

/-- The downloads of the analyzer, in insertion order
(`self.downloads.values()`). -/
def UVDownloadAnalyzer.downloadsValues (self : UVDownloadAnalyzer) :
    List PackageDownload :=
  self.downloads.map Prod.snd

/-- Stable insertion of `x` into `l`: `x` goes before the first element
strictly greater under the key, after equal keys (the placement a stable
sort such as Python `sorted` gives). -/
def stableInsert {α : Type} (lt : α → α → Bool) (x : α) : List α → List α
  | [] => [x]
  | y :: ys => if lt y x then y :: stableInsert lt x ys else x :: y :: ys

/-- Stable sort (extensionally equal to Python `sorted` with the same key). -/
def stableSort {α : Type} (lt : α → α → Bool) : List α → List α
  | [] => []
  | x :: xs => stableInsert lt x (stableSort lt xs)

/-- `sorted(self.downloads.values(), key=lambda d: d.start_time)`. -/
def sortDownloads (ds : List PackageDownload) : List PackageDownload :=
  stableSort (fun a b => a.start_time < b.start_time) ds

/-- `sorted(self.events, key=lambda e: e.timestamp)`. -/
def sortEvents (evs : List DownloadEvent) : List DownloadEvent :=
  stableSort (fun a b => a.timestamp < b.timestamp) evs

/-- Minimum of a nonempty list of rationals (Python `min`;
the `[]` case is never reached where this is used). -/
def qListMin : List ℚ → ℚ
  | [] => 0
  | x :: xs => xs.foldl min x

/-- Maximum of a list of rationals, `none` on the empty list (where
Python `max` raises `ValueError: max() arg is an empty sequence`). -/
def qListMax : List ℚ → Option ℚ
  | [] => none
  | x :: xs => some (xs.foldl max x)

/-- Overall-statistics block of `UVDownloadAnalyzer.get_timeline`
(lines 153-166): sorts the downloads by start time; on an empty set
reports "No downloads found" (`none`); otherwise computes
`first_start = min(d.start_time ...)`,
`last_end = max(d.end_time for d in sorted_downloads if d.end_time)` —
an exception (`ValueError` from `max()` on an empty sequence) when no
download has a truthy end time — and the total phase duration
`(last_end - first_start) * 1000`. -/
def UVDownloadAnalyzer.get_timeline_stats (self : UVDownloadAnalyzer) :
    Except Unit (Option (ℚ × ℚ × ℚ)) :=
  let sorted_downloads := sortDownloads self.downloadsValues
  if sorted_downloads.isEmpty then .ok none
  else
    let first_start := qListMin (sorted_downloads.map (fun d => d.start_time))
    let ends := sorted_downloads.filterMap
      (fun d => if pyTruthyOptQ d.end_time then d.end_time else none)
    match qListMax ends with
    | none => .error ()
    | some last_end => .ok (some (first_start, last_end, (last_end - first_start) * 1000))

/-- Overlap test of the parallelism analysis (`get_timeline`, lines
226-228): both downloads have truthy end times and
`d1.start_time < d2.end_time and d2.start_time < d1.end_time`. -/
def overlapPred (d1 d2 : PackageDownload) : Bool :=
  match d1.end_time, d2.end_time with
  | some e1, some e2 =>
    e1 ≠ 0 && e2 ≠ 0 && d1.start_time < e2 && d2.start_time < e1
  | _, _ => false

/-- Overlap duration (`get_timeline`, lines 229-231):
`(min(end1, end2) - max(start1, start2)) * 1000`. -/
def overlapDur (d1 d2 : PackageDownload) : ℚ :=
  match d1.end_time, d2.end_time with
  | some e1, some e2 => (min e1 e2 - max d1.start_time d2.start_time) * 1000
  | _, _ => 0

/-- Overlap enumeration of `get_timeline` (lines 223-232): for each
`i`, pairs `sorted_downloads[i]` with every later download, recording
`(d1.package, d2.package, overlap_duration)` for each overlapping pair. -/
def computeOverlaps : List PackageDownload → List (String × String × ℚ)
  | [] => []
  | d1 :: rest =>
    rest.filterMap
      (fun d2 =>
        if overlapPred d1 d2 then some (d1.package, d2.package, overlapDur d1 d2)
        else none)
      ++ computeOverlaps rest

/-- One step of the concurrency sweep of `get_timeline` (lines 246-251):
`start` increments the running counter and updates the running maximum,
`end` decrements the counter. The pair is `(max_parallel, current_parallel)`. -/
def sweepStep (mc : Int × Int) (e : DownloadEvent) : Int × Int :=
  if e.event_type = "start" then (max mc.1 (mc.2 + 1), mc.2 + 1)
  else if e.event_type = "end" then (mc.1, mc.2 - 1)
  else mc

/-- Maximum concurrent download count of `get_timeline` (lines 241-253):
sweeps the events sorted by timestamp, starting from zero counters. -/
def maxParallelOf (events : List DownloadEvent) : Int :=
  ((sortEvents events).foldl sweepStep (0, 0)).1

/-- The rule guard of the current stage (the condition under which the
`if`/`elif` chain of `UVStageParser.parse_line` fires a transition for
the given line, including, for the cache stage, the nonzero-id and
first-decision conditions that are part of that stage's rule). -/
def stageTrigger (self : UVStageParser) (line : String) : Bool :=
  match self.current_stage with
  | .initializing => matchB startupPat line
  | .startup => searchB resolverPat line
  | .resolution_setup => searchB freshPat line || searchB simpleApiPat line
  | .cache_checking_and_metadata =>
    searchB pubgrubFullPat line &&
      (match searchFrom pubgrubIdPat line.data with
       | some [g] => decide (digitsToNat g ≠ 0) && !self.seen_first_pubgrub_decision
       | _ => false)
  | .dependency_resolution => matchB resolvedFullPat line
  | .resolution_summary => searchB planPat line
  | .installation_planning => searchB preparePat line || searchB installBlockingPat line
  | .package_downloads => matchB preparedFullPat line
  | .package_preparation => searchB installBlockingPat line
  | .installation => matchB installedFullPat line
  | .final_summary => false

/-- Sample trace line triggering the startup banner rule. -/
def uvBannerLine : String := "    0.001s DEBUG uv uv 0.5.1 (abc123 2024-11-01)"

/-- Sample trace line triggering the resolution-setup rule. -/
def uvResolverLine : String :=
  "0.010s DEBUG uv_resolver::resolver Solving with installed Python version: 3.12.1"

/-- Sample trace line triggering the cache-checking rule (fresh cache path). -/
def uvFreshLine : String :=
  " DEBUG uv_client::cached_client Found fresh response for: https://pypi.org/simple/numpy/"

/-- Sample trace line triggering the dependency-resolution rule. -/
def uvPubgrubLine : String :=
  "INFO pubgrub::internal::partial_solution add_decision: Id::<PubGrubPackage>(1)"

/-- Sample trace line triggering the resolution-summary rule. -/
def uvResolvedLine : String := "Resolved 5 packages in 120ms"

/-- Sample trace line triggering the installation-planning rule. -/
def uvPlanLine : String := "DEBUG uv_installer::plan Identified numpy"

/-- Sample trace line triggering the install-blocking rule. -/
def uvInstallBlockingLine : String :=
  "2.0s DEBUG uv_installer::installer::install_blocking num_wheels=3"

/-- Trace reaching the `installation_planning` stage. -/
def stageTraceToPlanning : List String :=
  [uvBannerLine, uvResolverLine, uvFreshLine, uvPubgrubLine, uvResolvedLine, uvPlanLine]

/-- A line on which neither of the download analyzer's two line rules
(size announcement, data frame) matches. -/
def analyzerUnmatched (line : String) : Bool :=
  (searchFrom downloadingPat line.data).isNone && (searchFrom dataFramePat line.data).isNone

/-- Claim-side overlap condition: both downloads completed and
`start1 < end2 ∧ start2 < end1`. -/
def overlapSpec (d1 d2 : PackageDownload) : Prop :=
  ∃ e1 e2, d1.end_time = some e1 ∧ d2.end_time = some e2 ∧
    d1.start_time < e2 ∧ d2.start_time < e1

/-- Is this event a `start` event? -/
def isStartE (e : DownloadEvent) : Bool := decide (e.event_type = "start")

/-- Is this event an `end` event? -/
def isEndE (e : DownloadEvent) : Bool := decide (e.event_type = "end")

/-- Number of `start` events of a given stream in an event list. -/
def startsOf (sid : Nat) (evs : List DownloadEvent) : Nat :=
  evs.countP (fun e => isStartE e && decide (e.stream_id = sid))

/-- Number of `end` events of a given stream in an event list. -/
def endsOf (sid : Nat) (evs : List DownloadEvent) : Nat :=
  evs.countP (fun e => isEndE e && decide (e.stream_id = sid))

/-- Every event is a `start` or an `end` (true of all events the
analyzer ever emits). -/
def eventsWellKinded (evs : List DownloadEvent) : Bool :=
  evs.all (fun e => isStartE e || isEndE e)

/-- In every prefix of the event list, no stream has more `end` than
`start` events. Holds for the (sorted) event sequence of any trace in
which no stream signals `END_STREAM` on more lines than it starts. -/
def prefixStreamBalanced (evs : List DownloadEvent) : Bool :=
  (List.range (evs.length + 1)).all (fun n =>
    (evs.map (fun e => e.stream_id)).all (fun s =>
      decide (endsOf s (evs.take n) ≤ startsOf s (evs.take n))))

/-- The downloads of `S` overlap pairwise (strictly), in the sense of
the source's overlap test: every member's start time precedes every
member's end time. In particular every member is completed. -/
def cliquePairwiseOverlap (S : List PackageDownload) : Bool :=
  S.all (fun a => S.all (fun b =>
    match b.end_time with
    | some eb => decide (a.start_time < eb)
    | none => false))

/-- Each download of `S` has exactly one `start` event (at its start
time), and every `end` event of its stream carries its end time. -/
def cliqueEventsClean (S : List PackageDownload) (evs : List DownloadEvent) : Bool :=
  S.all (fun d =>
    decide (startsOf d.stream_id evs = 1) &&
    evs.all (fun e =>
      !(isStartE e && decide (e.stream_id = d.stream_id)) ||
        decide (e.timestamp = d.start_time)) &&
    evs.all (fun e =>
      !(isEndE e && decide (e.stream_id = d.stream_id)) ||
        decide (d.end_time = some e.timestamp)))

/-- Does this line register a pending download on stream `sid`? (The
size-announcement rule matches, its size capture parses, and the
package's stream lookup yields `sid`.) -/
def registersStream (sid : Nat) (line : String) : Bool :=
  match searchFrom downloadingPat line.data with
  | some [pkg, szg] =>
    (pyFloat? szg).isSome &&
      decide (find_stream_for_package (String.mk pkg) = some sid) && decide (sid ≠ 0)
  | _ => false

/-- Number of lines of a trace that register stream `sid`. -/
def regCount (sid : Nat) (lines : List String) : Nat :=
  lines.countP (registersStream sid)

/-- Whether stream `sid` holds a pending download whose start-time
sentinel is still unset (`0.0`), as a count (`0` or `1`). -/
def pendingStart (sid : Nat) (st : UVDownloadAnalyzer) : Nat :=
  match dictGet sid st.downloads with
  | some d => if d.start_time = 0 then 1 else 0
  | none => 0

/-- The three-download trace of the specification's test scenario:
torch (stream 7) from 0.5s to 3.0s, numpy (stream 11) from 1.0s to
1.5s, scipy (stream 9) from 1.1s to 1.3s. -/
def scenarioLines : List String :=
  ["Downloading torch (50.0MiB)",
   "0.5s frame=Data \x7b stream_id: StreamId(7)",
   "Downloading numpy (12.0MiB)",
   "Downloading scipy (8.0MiB)",
   "1.0s frame=Data \x7b stream_id: StreamId(11)",
   "1.1s frame=Data \x7b stream_id: StreamId(9)",
   "1.3s frame=Data \x7b stream_id: StreamId(9), flags END_STREAM",
   "1.5s frame=Data \x7b stream_id: StreamId(11), flags END_STREAM",
   "3.0s frame=Data \x7b stream_id: StreamId(7), flags END_STREAM"]

/-- A trace whose single download starts but never ends. -/
def incompleteDownloadLines : List String :=
  ["Downloading numpy (12.0MiB)",
   "1.5s frame=Data \x7b stream_id: StreamId(11)"]

/-- A trace producing a zero-duration completed download: the first
data frame of stream 7 already carries the `END_STREAM` flag. -/
def zeroDurationLines : List String :=
  ["Downloading torch (1.0MiB)",
   "2.0s frame=Data \x7b stream_id: StreamId(7) END_STREAM"]

/-- A trace that registers stream 7 twice: the second size announcement
resets the start-time sentinel, so a second `start` event is emitted. -/
def reRegisterLines : List String :=
  ["Downloading torch (1.0MiB)",
   "1.0s frame=Data \x7b stream_id: StreamId(7)",
   "Downloading torch (2.0MiB)",
   "2.0s frame=Data \x7b stream_id: StreamId(7)"]

/-- A trace in which stream 7 signals `END_STREAM` twice, emitting two
`end` events for a single `start` event; numpy (stream 11, 3.0s-5.0s)
and scipy (stream 9, 3.5s-6.0s) then overlap pairwise. -/
def doubleEndLines : List String :=
  ["Downloading torch (1.0MiB)",
   "1.0s frame=Data \x7b stream_id: StreamId(7) END_STREAM",
   "2.0s frame=Data \x7b stream_id: StreamId(7) END_STREAM",
   "Downloading numpy (2.0MiB)",
   "Downloading scipy (3.0MiB)",
   "3.0s frame=Data \x7b stream_id: StreamId(11)",
   "3.5s frame=Data \x7b stream_id: StreamId(9)",
   "5.0s frame=Data \x7b stream_id: StreamId(11) END_STREAM",
   "6.0s frame=Data \x7b stream_id: StreamId(9) END_STREAM"]

/-- Difference between the number of `start` and `end` events of a
list (the net effect of the list on the sweep's running counter). -/
def deltaEvs (evs : List DownloadEvent) : Int :=
  (evs.countP isStartE : Int) - (evs.countP isEndE : Int)

/-- The analyzer state after the specification's three-download test
scenario. -/
def scenarioState : UVDownloadAnalyzer :=
  (runAnalyzer scenarioLines).toOption.getD UVDownloadAnalyzer.init

/-! ## Structural lemmas about the stage classifier -/

/-- The rule-dispatch block never touches the recorded history. -/
theorem applyRules_history (s : UVStageParser) (l : String) :
    (s.applyRules l).stage_history = s.stage_history := by
  unfold UVStageParser.applyRules
  cases h : s.current_stage <;> simp only <;> repeat (first | rfl | split)

/-- When the rule guard of the current stage does not hold, the
rule-dispatch block leaves the whole state unchanged. -/
theorem applyRules_of_trigger_false (s : UVStageParser) (l : String)
    (h : stageTrigger s l = false) : s.applyRules l = s := by
  unfold UVStageParser.applyRules
  unfold stageTrigger at h
  cases hs : s.current_stage <;> rw [hs] at h <;> simp only <;>
    (simp_all; repeat (first | split | simp_all))

/-- If the rule-dispatch block does not change the stage, it changes
nothing at all. -/
theorem applyRules_eq_of_stage_eq (s : UVStageParser) (l : String)
    (h : (s.applyRules l).current_stage = s.current_stage) : s.applyRules l = s := by
  unfold UVStageParser.applyRules at *
  cases hs : s.current_stage <;> rw [hs] at h <;> simp only at * <;>
    repeat (first | split at h | simp_all)

/-- Every fired stage change is either an advance by exactly one
position or the `installation_planning → installation` jump. -/
theorem applyRules_step (s : UVStageParser) (l : String) :
    (s.applyRules l).current_stage = s.current_stage ∨
    (s.applyRules l).current_stage.idx = s.current_stage.idx + 1 ∨
    (s.current_stage = .installation_planning ∧
      (s.applyRules l).current_stage = .installation) := by
  unfold UVStageParser.applyRules
  cases hs : s.current_stage <;> simp only <;>
    repeat (first | exact Or.inl rfl | split | simp_all [UVStage.idx])

/-- A fired stage change strictly increases the stage index. -/
theorem applyRules_idx_lt (s : UVStageParser) (l : String)
    (h : (s.applyRules l).current_stage ≠ s.current_stage) :
    s.current_stage.idx < (s.applyRules l).current_stage.idx := by
  rcases applyRules_step s l with h1 | h1 | ⟨h1, h2⟩
  · exact absurd h1 h
  · omega
  · rw [h1, h2]; decide

/-- When no transition fires, `parse_line` returns the unchanged state
and `None`. -/
theorem parse_line_of_stage_eq (s : UVStageParser) (l : String)
    (h : (s.applyRules l).current_stage = s.current_stage) :
    s.parse_line l = (s, none) := by
  have he := applyRules_eq_of_stage_eq s l h
  unfold UVStageParser.parse_line
  simp [he]

/-- When a transition fires, `parse_line` returns the rule-updated state
with the new transition appended to the history, and the new stage. -/
theorem parse_line_of_stage_ne (s : UVStageParser) (l : String)
    (h : (s.applyRules l).current_stage ≠ s.current_stage) :
    s.parse_line l =
      ({ s.applyRules l with
          stage_history := s.stage_history ++ [((s.applyRules l).current_stage, l)] },
       some (s.applyRules l).current_stage) := by
  simp only [UVStageParser.parse_line, ne_eq]
  rw [if_pos (fun hx => h hx.symm), applyRules_history]

/-- One `parse_line` step preserves the history invariant: history
indices form a strictly increasing chain bounded by the current stage. -/
theorem parse_line_preserves_inv (s : UVStageParser) (l : String)
    (h1 : List.Chain' (· < ·) (s.stage_history.map (fun p => p.1.idx)))
    (h2 : ∀ x ∈ s.stage_history.map (fun p => p.1.idx), x ≤ s.current_stage.idx) :
    List.Chain' (· < ·) ((s.parse_line l).1.stage_history.map (fun p => p.1.idx)) ∧
    ∀ x ∈ (s.parse_line l).1.stage_history.map (fun p => p.1.idx),
      x ≤ (s.parse_line l).1.current_stage.idx := by
  by_cases hc : (s.applyRules l).current_stage = s.current_stage
  · rw [parse_line_of_stage_eq s l hc]
    exact ⟨h1, h2⟩
  · rw [parse_line_of_stage_ne s l hc]
    have hlt := applyRules_idx_lt s l hc
    constructor
    · simp only [List.map_append, List.map_cons, List.map_nil]
      rw [List.chain'_append]
      refine ⟨h1, List.chain'_singleton _, ?_⟩
      intro x hx y hy
      simp only [List.head?_cons, Option.mem_def, Option.some.injEq] at hy
      subst hy
      have hxm : x ∈ s.stage_history.map (fun p => p.1.idx) :=
        List.mem_of_mem_getLast? hx
      exact lt_of_le_of_lt (h2 x hxm) hlt
    · intro x hx
      simp only [List.map_append, List.map_cons, List.map_nil,
        List.mem_append, List.mem_singleton] at hx
      rcases hx with hx | hx
      · exact le_of_lt (lt_of_le_of_lt (h2 x hx) hlt)
      · simp [hx]

/-- The history invariant holds along any fold of `parse_line`. -/
theorem runStage_inv (lines : List String) : ∀ (s : UVStageParser),
    List.Chain' (· < ·) (s.stage_history.map (fun p => p.1.idx)) →
    (∀ x ∈ s.stage_history.map (fun p => p.1.idx), x ≤ s.current_stage.idx) →
    List.Chain' (· < ·)
      ((lines.foldl (fun t l => (t.parse_line l).1) s).stage_history.map
        (fun p => p.1.idx)) ∧
    ∀ x ∈ (lines.foldl (fun t l => (t.parse_line l).1) s).stage_history.map
        (fun p => p.1.idx),
      x ≤ (lines.foldl (fun t l => (t.parse_line l).1) s).current_stage.idx := by
  induction lines with
  | nil => intro s h1 h2; exact ⟨h1, h2⟩
  | cons l rest ih =>
    intro s h1 h2
    have hstep := parse_line_preserves_inv s l h1 h2
    simpa using ih ((s.parse_line l).1) hstep.1 hstep.2

/-- C1. For every input trace fed line by line to the stage classifier,
the emitted `StageTransition` sequence is strictly increasing in the
stage enumeration's index — every recorded transition moves to a
strictly later stage — and no stage value occurs twice in the history. -/
theorem stage_history_strictly_increasing (lines : List String) :
    List.Chain' (· < ·)
      ((runStageParser lines).stage_history.map (fun p => p.1.idx)) ∧
    ((runStageParser lines).stage_history.map (fun p => p.1)).Nodup := by
  have h := runStage_inv lines UVStageParser.init (by simp [UVStageParser.init])
    (by simp [UVStageParser.init])
  have hchain : List.Chain' (· < ·)
      ((runStageParser lines).stage_history.map (fun p => p.1.idx)) := h.1
  refine ⟨hchain, ?_⟩
  have hpw := List.chain'_iff_pairwise.mp hchain
  have hidx : ((runStageParser lines).stage_history.map (fun p => p.1.idx)).Nodup :=
    hpw.imp (fun h => Nat.ne_of_lt h)
  have hmm : (runStageParser lines).stage_history.map (fun p => p.1.idx) =
      ((runStageParser lines).stage_history.map (fun p => p.1)).map UVStage.idx := by
    rw [List.map_map]; rfl
  rw [hmm] at hidx
  exact List.Nodup.of_map _ hidx

/-- C2 counterexample. From the `installation_planning` stage, the
`install_blocking` trigger fires a transition directly to
`installation`, three positions ahead — not the immediate successor. -/
theorem parse_line_can_skip_stages :
    (runStageParser stageTraceToPlanning).current_stage = .installation_planning ∧
    ((runStageParser stageTraceToPlanning).parse_line uvInstallBlockingLine).2 =
      some .installation ∧
    UVStage.installation.idx ≠ UVStage.installation_planning.idx + 1 := by
  refine ⟨by decide, by decide, by decide⟩

/-- C2 amended. Whenever `parse_line` fires a transition, the new
current stage is the returned stage, and it is the immediate successor
of the previous stage in the enumeration except for the one documented
shortcut: from `installation_planning`, the `install_blocking` rule
(taken when no downloads are needed) moves directly to `installation`. -/
theorem parse_line_advances_one_or_skips_to_install (s : UVStageParser)
    (l : String) (stg : UVStage) (h : (s.parse_line l).2 = some stg) :
    (s.parse_line l).1.current_stage = stg ∧
    (stg.idx = s.current_stage.idx + 1 ∨
      (s.current_stage = .installation_planning ∧ stg = .installation)) := by
  by_cases hc : (s.applyRules l).current_stage = s.current_stage
  · rw [parse_line_of_stage_eq s l hc] at h
    simp at h
  · rw [parse_line_of_stage_ne s l hc] at h ⊢
    simp only [Option.some.injEq] at h
    subst h
    refine ⟨rfl, ?_⟩
    rcases applyRules_step s l with h1 | h1 | h1
    · exact absurd h1 hc
    · exact Or.inl h1
    · exact Or.inr h1

/-- C2 witness: the first transition of a trace, at the banner line. -/
theorem parse_line_advance_witness :
    (UVStageParser.init.parse_line uvBannerLine).1.current_stage = UVStage.startup ∧
    (UVStage.startup.idx = UVStageParser.init.current_stage.idx + 1 ∨
      (UVStageParser.init.current_stage = .installation_planning ∧
        UVStage.startup = .installation)) :=
  parse_line_advances_one_or_skips_to_install UVStageParser.init uvBannerLine
    .startup (by decide)

/-- The size-announcement block is the identity when its regex does not
match the line. -/
theorem downloadAnnounce_of_no_match (st : UVDownloadAnalyzer) (n : Nat) (l : String)
    (h : searchFrom downloadingPat l.data = none) :
    st.downloadAnnounce n l = .ok st := by
  unfold UVDownloadAnalyzer.downloadAnnounce
  rw [h]

/-- The data-frame block is the identity when its regex does not match
the line. -/
theorem dataFrameStep_of_no_match (st : UVDownloadAnalyzer) (n : Nat) (l : String)
    (ts : ℚ) (h : searchFrom dataFramePat l.data = none) :
    st.dataFrameStep n l ts = st := by
  unfold UVDownloadAnalyzer.dataFrameStep
  rw [h]

/-- A single unmatched line leaves the analyzer state unchanged,
provided the timestamp extraction does not raise. -/
theorem parse_line_unmatched_noop (st : UVDownloadAnalyzer) (n : Nat) (l : String)
    (h2 : analyzerUnmatched l = true)
    (h3 : UVDownloadAnalyzer.parse_timestamp l ≠ .error ()) :
    st.parse_line n l = .ok st := by
  unfold analyzerUnmatched at h2
  rw [Bool.and_eq_true, Option.isNone_iff_eq_none, Option.isNone_iff_eq_none] at h2
  unfold UVDownloadAnalyzer.parse_line
  cases hts : UVDownloadAnalyzer.parse_timestamp l with
  | error e => cases e; exact absurd hts h3
  | ok ts =>
    rw [downloadAnnounce_of_no_match st n l h2.1]
    cases ts with
    | none => rfl
    | some t =>
      show (if t = 0 then Except.ok st
            else Except.ok (st.dataFrameStep n l t)) = Except.ok st
      by_cases h0 : t = 0
      · rw [if_pos h0]
      · rw [if_neg h0, dataFrameStep_of_no_match st n l t h2.2]

/-- C7 amended. Feeding a line that matches no rule in the current
state is a no-op, repeatably, for both consumers — for the download
analyzer under the proviso that the line's leading elapsed-time
extraction does not raise on a malformed numeric prefix (without the
proviso the state is not mutated either, but the call raises instead of
returning nothing; see the counterexample). -/
theorem unmatched_lines_are_noops (s : UVStageParser) (l : String)
    (st : UVDownloadAnalyzer) (n : Nat) (l' : String) (k : Nat)
    (h1 : stageTrigger s l = false)
    (h2 : analyzerUnmatched l' = true)
    (h3 : UVDownloadAnalyzer.parse_timestamp l' ≠ .error ()) :
    s.parse_line l = (s, none) ∧
    (List.replicate k l).foldl (fun t x => (t.parse_line x).1) s = s ∧
    st.parse_line n l' = .ok st ∧
    runAnalyzerFrom st n (List.replicate k l') = .ok st := by
  have hstage : s.parse_line l = (s, none) := by
    have he := applyRules_of_trigger_false s l h1
    exact parse_line_of_stage_eq s l (by rw [he])
  have hana : ∀ m : Nat, st.parse_line m l' = .ok st := fun m =>
    parse_line_unmatched_noop st m l' h2 h3
  refine ⟨hstage, ?_, hana n, ?_⟩
  · induction k with
    | zero => rfl
    | succ k ih => simpa [List.replicate_succ, hstage] using ih
  · clear hstage
    induction k generalizing n with
    | zero => rfl
    | succ k ih =>
      rw [List.replicate_succ]
      unfold runAnalyzerFrom
      rw [hana n]
      exact ih (n + 1)

/-- C7 witness: a blank-ish line matches no rule anywhere and is a
repeatable no-op for both engines. -/
theorem unmatched_lines_are_noops_witness :
    UVStageParser.init.parse_line "hello" = (UVStageParser.init, none) ∧
    (List.replicate 3 "hello").foldl (fun t x => (t.parse_line x).1)
      UVStageParser.init = UVStageParser.init ∧
    UVDownloadAnalyzer.init.parse_line 1 "world" = .ok UVDownloadAnalyzer.init ∧
    runAnalyzerFrom UVDownloadAnalyzer.init 1 (List.replicate 3 "world") =
      .ok UVDownloadAnalyzer.init :=
  unmatched_lines_are_noops UVStageParser.init "hello" UVDownloadAnalyzer.init 1
    "world" 3 (by decide) (by decide) (by decide)

/-- C7 counterexample. The line `"..s x"` matches neither analyzer rule
(and no stage rule mentions it), yet feeding it to the download
analyzer raises (`float('..')` inside `parse_timestamp`) instead of
returning nothing: the call is not a clean no-op. -/
theorem unmatched_line_raises :
    analyzerUnmatched "..s x" = true ∧
    UVDownloadAnalyzer.init.parse_line 1 "..s x" = .error () := by
  exact ⟨by decide, by decide⟩

/-- C8. The elapsed-time extraction is not total: on a line whose
candidate timestamp prefix is `".."` — matched by the `[0-9.]+` capture
but not a well-formed float — `parse_timestamp` raises `ValueError`
(modelled as `.error ()`), and so does `parse_line` on that line, for
any state; the claim that malformed numeric captures are treated as
non-matches is violated at this input. -/
theorem parse_timestamp_raises_on_malformed :
    UVDownloadAnalyzer.parse_timestamp "..s x" = .error () ∧
    UVDownloadAnalyzer.init.parse_line 7 "..s x" = .error () ∧
    runAnalyzer ["..s x"] = .error () := by
  exact ⟨by decide, by decide, by decide⟩

/-- C3. On a trace whose only download starts but never ends,
`get_timeline`'s overall-statistics block raises (`ValueError` from
`max()` over an empty sequence) instead of reporting the download as
incomplete: the total-phase-duration computation is not
undefined/empty-safe. -/
theorem get_timeline_raises_on_incomplete :
    (runAnalyzer incompleteDownloadLines).map
      (fun st => st.get_timeline_stats) = .ok (.error ()) ∧
    (runAnalyzer incompleteDownloadLines).map
      (fun st => st.downloadsValues.map (fun d => d.end_time)) = .ok [none] := by
  exact ⟨by with_unfolding_all decide, by with_unfolding_all decide⟩

/-- C4 counterexample. A download whose first data frame already
carries `END_STREAM` is completed with known size (`1.0` MiB), known
duration (`0.0` ms), yet its throughput is `None` — the Python
truth-value guard `if self.duration_ms and self.size_mb:` treats the
known-but-zero duration as absent, refuting "present exactly when both
size and duration are known". -/
theorem speed_absent_with_known_size_and_duration :
    (runAnalyzer zeroDurationLines).map
      (fun st => (dictGet 7 st.downloads).map
        (fun d => (d.end_time, d.size_mb, d.duration_ms, d.speed_mbps))) =
      .ok (some (some 2, some 1, some 0, none)) := by
  with_unfolding_all decide

/-- C4 amended. For every completed `PackageDownload`, `duration_ms`
equals `(end_time - start_time) * 1000`; the throughput is present
exactly when duration and size are both known and nonzero (Python
truthiness), and in that case equals `size_mb * 8 / (duration_ms / 1000)`. -/
theorem duration_and_speed_formulas (d : PackageDownload) (e : ℚ)
    (h : d.end_time = some e) :
    d.duration_ms = some ((e - d.start_time) * 1000) ∧
    (∀ s : ℚ, d.size_mb = some s → (e - d.start_time) * 1000 ≠ 0 → s ≠ 0 →
      d.speed_mbps = some ((s * 8) / (((e - d.start_time) * 1000) / 1000))) ∧
    ((d.speed_mbps ≠ none) ↔
      (pyTruthyOptQ d.duration_ms = true ∧ pyTruthyOptQ d.size_mb = true)) := by
  have hdur : d.duration_ms = some ((e - d.start_time) * 1000) := by
    unfold PackageDownload.duration_ms
    rw [h]
  refine ⟨hdur, ?_, ?_⟩
  · intro s hs hdne hsne
    unfold PackageDownload.speed_mbps
    rw [hdur, hs]
    simp [hdne, hsne]
  · unfold PackageDownload.speed_mbps pyTruthyOptQ
    rw [hdur]
    cases hs : d.size_mb with
    | none => simp
    | some s =>
      by_cases hd0 : (e - d.start_time) * 1000 = 0 <;>
        by_cases hs0 : s = 0 <;> simp [hd0, hs0]

/-- C4 witness: a completed download with nonzero size and duration. -/
theorem duration_and_speed_formulas_witness :
    (PackageDownload.mk "torch" 7 1 1 (some 3) (some 9) (some 50) 2).duration_ms
        = some ((3 - 1) * 1000) ∧
    (∀ s : ℚ,
      (PackageDownload.mk "torch" 7 1 1 (some 3) (some 9) (some 50) 2).size_mb
          = some s →
      ((3 : ℚ) - 1) * 1000 ≠ 0 → s ≠ 0 →
      (PackageDownload.mk "torch" 7 1 1 (some 3) (some 9) (some 50) 2).speed_mbps
          = some ((s * 8) / ((((3 : ℚ) - 1) * 1000) / 1000))) ∧
    (((PackageDownload.mk "torch" 7 1 1 (some 3) (some 9) (some 50) 2).speed_mbps
          ≠ none) ↔
      (pyTruthyOptQ
          (PackageDownload.mk "torch" 7 1 1 (some 3) (some 9) (some 50) 2).duration_ms
            = true ∧
        pyTruthyOptQ
          (PackageDownload.mk "torch" 7 1 1 (some 3) (some 9) (some 50) 2).size_mb
            = true)) :=
  duration_and_speed_formulas (PackageDownload.mk "torch" 7 1 1 (some 3) (some 9)
    (some 50) 2) 3 rfl

/-- Reading back the key just written into an insertion-ordered
dictionary yields the written value. -/
theorem dictGet_dictSet_self {α : Type} (k : Nat) (v : α) (l : List (Nat × α)) :
    dictGet k (dictSet k v l) = some v := by
  induction l with
  | nil => simp [dictSet, dictGet]
  | cons p rest ih =>
    unfold dictSet
    by_cases hk : p.1 = k
    · simp [hk, dictGet]
    · simp only [hk, if_false]
      unfold dictGet
      simp [hk, ih]

/-- Writing one key leaves every other key's binding unchanged. -/
theorem dictGet_dictSet_ne {α : Type} (k k' : Nat) (v : α) (l : List (Nat × α))
    (h : k' ≠ k) : dictGet k' (dictSet k v l) = dictGet k' l := by
  have hk'' : ¬(k = k') := fun hh => h hh.symm
  induction l with
  | nil => simp [dictSet, dictGet, hk'']
  | cons p rest ih =>
    obtain ⟨a, b⟩ := p
    unfold dictSet
    by_cases hk : a = k
    · subst hk
      simp [dictGet, hk'']
    · rw [if_neg hk]
      unfold dictGet
      by_cases hk' : a = k' <;> simp [hk', ih]

/-- Reading any key after a write yields either the old binding or the
written value. -/
theorem dictGet_dictSet_cases {α : Type} (k sid : Nat) (v : α)
    (l : List (Nat × α)) (d : α) (h : dictGet k (dictSet sid v l) = some d) :
    dictGet k l = some d ∨ d = v := by
  by_cases hks : k = sid
  · subst hks
    rw [dictGet_dictSet_self] at h
    exact Or.inr (Option.some.inj h).symm
  · rw [dictGet_dictSet_ne _ _ _ _ hks] at h
    exact Or.inl h

/-- The size-announcement block never touches the event list. -/
theorem downloadAnnounce_events (st st' : UVDownloadAnalyzer) (n : Nat) (l : String)
    (h : st.downloadAnnounce n l = .ok st') : st'.events = st.events := by
  unfold UVDownloadAnalyzer.downloadAnnounce at h
  repeat' split at h
  all_goals first
    | exact Except.noConfusion h
    | (injection h with h; subst h; rfl)

/-- Every download record present after the size-announcement block is
either an unchanged pre-existing record or a freshly registered pending
record (no data frames counted, no start or end time set). -/
theorem downloadAnnounce_downloads (st st' : UVDownloadAnalyzer) (n : Nat)
    (l : String) (h : st.downloadAnnounce n l = .ok st') :
    ∀ k d, dictGet k st'.downloads = some d →
      dictGet k st.downloads = some d ∨
      (d.data_frames = 0 ∧ d.start_time = 0 ∧ d.end_time = none) := by
  unfold UVDownloadAnalyzer.downloadAnnounce at h
  repeat' split at h
  all_goals first
    | exact Except.noConfusion h
    | (injection h with h; subst h; intro k d hkd; exact Or.inl hkd)
    | (injection h with h; subst h
       intro k d hkd
       rcases dictGet_dictSet_cases _ _ _ _ _ hkd with hc | hc
       · exact Or.inl hc
       · subst hc; exact Or.inr ⟨rfl, rfl, rfl⟩)

/-- C10. A line whose elapsed-time prefix parses to exactly `0.0` is
treated like a timestamp-free line: `parse_line` returns right after
the size-announcement block (which is the only handling that runs), so
no `start` or `end` event is emitted, no frame counter is incremented,
and the only possible download-state change is the registration of a
fresh pending record by a size announcement on the same line. -/
theorem zero_timestamp_line_only_registers (st : UVDownloadAnalyzer) (n : Nat)
    (l : String) (h : UVDownloadAnalyzer.parse_timestamp l = .ok (some 0)) :
    st.parse_line n l = st.downloadAnnounce n l ∧
    ∀ st', st.downloadAnnounce n l = .ok st' →
      st'.events = st.events ∧
      ∀ k d, dictGet k st'.downloads = some d →
        dictGet k st.downloads = some d ∨
        (d.data_frames = 0 ∧ d.start_time = 0 ∧ d.end_time = none) := by
  constructor
  · unfold UVDownloadAnalyzer.parse_line
    rw [h]
    cases hda : st.downloadAnnounce n l with
    | error e => rfl
    | ok st2 =>
      show (if (0 : ℚ) = 0 then Except.ok st2
            else Except.ok (st2.dataFrameStep n l 0)) = Except.ok st2
      rw [if_pos rfl]
  · intro st' h'
    exact ⟨downloadAnnounce_events st st' n l h',
           downloadAnnounce_downloads st st' n l h'⟩

/-- C10 witness: a data-frame line for stream 7 with elapsed time
`0.0s`, fed to the initial analyzer state. -/
theorem zero_timestamp_line_only_registers_witness :
    UVDownloadAnalyzer.init.parse_line 1 "0.0s frame=Data \x7b stream_id: StreamId(7)" =
      UVDownloadAnalyzer.init.downloadAnnounce 1
        "0.0s frame=Data \x7b stream_id: StreamId(7)" ∧
    ∀ st', UVDownloadAnalyzer.init.downloadAnnounce 1
        "0.0s frame=Data \x7b stream_id: StreamId(7)" = .ok st' →
      st'.events = UVDownloadAnalyzer.init.events ∧
      ∀ k d, dictGet k st'.downloads = some d →
        dictGet k UVDownloadAnalyzer.init.downloads = some d ∨
        (d.data_frames = 0 ∧ d.start_time = 0 ∧ d.end_time = none) :=
  zero_timestamp_line_only_registers UVDownloadAnalyzer.init 1
    "0.0s frame=Data \x7b stream_id: StreamId(7)" (by with_unfolding_all decide)

/-! ## Permutation and ordering facts about the stable sort -/

/-- Stable insertion permutes a cons. -/
theorem stableInsert_perm {α : Type} (lt : α → α → Bool) (x : α) (l : List α) :
    List.Perm (stableInsert lt x l) (x :: l) := by
  induction l with
  | nil => exact List.Perm.refl _
  | cons y ys ih =>
    unfold stableInsert
    by_cases hl : lt y x
    · simp only [hl, if_true]
      exact (ih.cons y).trans (List.Perm.swap x y ys)
    · simp only [hl, if_false]
      exact List.Perm.refl _

/-- The stable sort is a permutation of its input. -/
theorem stableSort_perm {α : Type} (lt : α → α → Bool) (l : List α) :
    List.Perm (stableSort lt l) l := by
  induction l with
  | nil => exact List.Perm.refl _
  | cons x xs ih =>
    exact (stableInsert_perm lt x (stableSort lt xs)).trans (ih.cons x)

/-- Binding found by dictionary lookup is present in the list. -/
theorem dictGet_mem {α : Type} (k : Nat) (v : α) (l : List (Nat × α))
    (h : dictGet k l = some v) : (k, v) ∈ l := by
  induction l with
  | nil => exact absurd h (by simp [dictGet])
  | cons p rest ih =>
    obtain ⟨a, b⟩ := p
    unfold dictGet at h
    by_cases hk : a = k
    · simp only [hk, if_true] at h
      injection h with h
      subst hk
      subst h
      exact List.mem_cons_self _ _
    · simp only [hk, if_false] at h
      exact List.mem_cons_of_mem _ (ih h)

/-- Members of a dictionary after a write: the written binding or an
old one. -/
theorem mem_dictSet {α : Type} (k : Nat) (v : α) (l : List (Nat × α)) :
    ∀ p ∈ dictSet k v l, p = (k, v) ∨ p ∈ l := by
  induction l with
  | nil => intro p hp; simp [dictSet] at hp; exact Or.inl hp
  | cons q rest ih =>
    intro p hp
    unfold dictSet at hp
    by_cases hk : q.1 = k
    · rw [if_pos hk] at hp
      rcases List.mem_cons.mp hp with hp | hp
      · exact Or.inl hp
      · exact Or.inr (List.mem_cons_of_mem q hp)
    · rw [if_neg hk] at hp
      rcases List.mem_cons.mp hp with hp | hp
      · exact Or.inr (by rw [hp]; exact List.mem_cons_self q rest)
      · rcases ih p hp with hh | hh
        · exact Or.inl hh
        · exact Or.inr (List.mem_cons_of_mem q hh)

/-- Download records after the data-frame block: each is an old record,
or an update of an old record of the same stream whose end time is
either inherited or set to the line's timestamp. -/
theorem dataFrameStep_end_times (st : UVDownloadAnalyzer) (n : Nat) (l : String)
    (ts : ℚ) :
    ∀ p ∈ (st.dataFrameStep n l ts).downloads,
      p ∈ st.downloads ∨
      ∃ d0, (p.1, d0) ∈ st.downloads ∧
        (p.2.end_time = d0.end_time ∨ p.2.end_time = some ts) := by
  unfold UVDownloadAnalyzer.dataFrameStep
  split
  next sg hsg =>
    cases hget : dictGet (digitsToNat sg) st.downloads with
    | none => simp only [hget]; exact fun p hp => Or.inl hp
    | some download =>
      simp only [hget]
      intro p hp
      rcases mem_dictSet _ _ _ p hp with hp | hp
      · right
        refine ⟨download, ?_, ?_⟩
        · rw [show p.1 = digitsToNat sg from by rw [hp]]
          exact dictGet_mem _ _ _ hget
        · rw [hp]
          by_cases h3 : hasEndStream l
          · simp only [h3, if_true]
            exact Or.inr trivial
          · simp only [h3, if_false]
            left
            by_cases h1 : download.start_time = 0 <;>
              by_cases h2 : pyTruthyOptQ download.end_time = false <;>
                simp [h1, h2]
      · exact Or.inl hp
  next => exact fun p hp => Or.inl hp

/-- Download records after the size-announcement block, by membership:
old records or fresh pending registrations. -/
theorem downloadAnnounce_mem_downloads (st st' : UVDownloadAnalyzer) (n : Nat)
    (l : String) (h : st.downloadAnnounce n l = .ok st') :
    ∀ p ∈ st'.downloads, p ∈ st.downloads ∨ p.2.end_time = none := by
  unfold UVDownloadAnalyzer.downloadAnnounce at h
  repeat' split at h
  all_goals first
    | exact Except.noConfusion h
    | (injection h with h; subst h; exact fun p hp => Or.inl hp)
    | (injection h with h; subst h
       intro p hp
       rcases mem_dictSet _ _ _ p hp with hp | hp
       · rw [hp]
         exact Or.inr rfl
       · exact Or.inl hp)

/-- One `parse_line` step preserves the invariant that no recorded
download has a zero end time (end times are only ever set from truthy,
hence nonzero, timestamps). -/
theorem parse_line_no_zero_end (st st' : UVDownloadAnalyzer) (n : Nat) (l : String)
    (h : st.parse_line n l = .ok st')
    (hP : ∀ p ∈ st.downloads, p.2.end_time ≠ some 0) :
    ∀ p ∈ st'.downloads, p.2.end_time ≠ some 0 := by
  unfold UVDownloadAnalyzer.parse_line at h
  cases hts : UVDownloadAnalyzer.parse_timestamp l with
  | error e => rw [hts] at h; exact Except.noConfusion h
  | ok ts =>
    rw [hts] at h
    cases hda : st.downloadAnnounce n l with
    | error e => rw [hda] at h; exact Except.noConfusion h
    | ok st2 =>
      rw [hda] at h
      have hP2 : ∀ p ∈ st2.downloads, p.2.end_time ≠ some 0 := by
        intro p hp
        rcases downloadAnnounce_mem_downloads st st2 n l hda p hp with hc | hc
        · exact hP p hc
        · rw [hc]; exact fun hh => Option.noConfusion hh
      cases ts with
      | none => injection h with h; subst h; exact hP2
      | some t =>
        have h2 : (if t = 0 then Except.ok st2
            else Except.ok (st2.dataFrameStep n l t)) = Except.ok st' := h
        by_cases h0 : t = 0
        · rw [if_pos h0] at h2
          injection h2 with h2; subst h2; exact hP2
        · rw [if_neg h0] at h2
          injection h2 with h2
          subst h2
          intro p hp
          rcases dataFrameStep_end_times st2 n l t p hp with hc | ⟨d0, hd0, hc | hc⟩
          · exact hP2 p hc
          · rw [hc]; exact hP2 (p.1, d0) hd0
          · rw [hc]
            exact fun hh => h0 (Option.some.inj hh)

/-- The no-zero-end invariant holds for every state the analyzer
reaches from a state satisfying it. -/
theorem runAnalyzerFrom_no_zero_end (lines : List String) : ∀ (st0 st : UVDownloadAnalyzer)
    (n : Nat), runAnalyzerFrom st0 n lines = .ok st →
    (∀ p ∈ st0.downloads, p.2.end_time ≠ some 0) →
    ∀ p ∈ st.downloads, p.2.end_time ≠ some 0 := by
  induction lines with
  | nil =>
    intro st0 st n h hP
    injection h with h
    subst h
    exact hP
  | cons l rest ih =>
    intro st0 st n h hP
    unfold runAnalyzerFrom at h
    cases hpl : st0.parse_line n l with
    | error e => rw [hpl] at h; exact Except.noConfusion h
    | ok st1 =>
      rw [hpl] at h
      exact ih st1 st (n + 1) h (parse_line_no_zero_end st0 st1 n l hpl hP)

/-- No download of a reachable analyzer state has a zero end time. -/
theorem runAnalyzer_no_zero_end (lines : List String) (st : UVDownloadAnalyzer)
    (h : runAnalyzer lines = .ok st) :
    ∀ p ∈ st.downloads, p.2.end_time ≠ some 0 :=
  runAnalyzerFrom_no_zero_end lines UVDownloadAnalyzer.init st 1 h (by simp [UVDownloadAnalyzer.init])

/-- Every overlapping pair (at positions `i < j` of the download list)
is reported by the overlap enumeration. -/
theorem computeOverlaps_complete (ds : List PackageDownload) :
    ∀ (i j : Nat) (hi : i < ds.length) (hj : j < ds.length), i < j →
      overlapPred ds[i] ds[j] = true →
      (ds[i].package, ds[j].package, overlapDur ds[i] ds[j]) ∈ computeOverlaps ds := by
  induction ds with
  | nil => intro i j hi; simp at hi
  | cons d rest ih =>
    intro i j hi hj hij hpred
    unfold computeOverlaps
    cases i with
    | zero =>
      cases j with
      | zero => simp at hij
      | succ jj =>
        apply List.mem_append_left
        apply List.mem_filterMap.mpr
        have hjjr : jj < rest.length := by simpa using hj
        refine ⟨rest[jj], List.getElem_mem _, ?_⟩
        simp only [List.getElem_cons_zero, List.getElem_cons_succ] at hpred ⊢
        rw [if_pos hpred]
    | succ ii =>
      cases j with
      | zero => simp at hij
      | succ jj =>
        apply List.mem_append_right
        simp only [List.getElem_cons_succ] at hpred ⊢
        exact ih ii jj (by simpa using hi) (by simpa using hj)
          (Nat.succ_lt_succ_iff.mp hij) hpred

/-- Everything the overlap enumeration reports comes from an
overlapping pair at positions `i < j`. -/
theorem computeOverlaps_sound (ds : List PackageDownload) :
    ∀ x ∈ computeOverlaps ds,
      ∃ (i j : Nat) (hi : i < ds.length) (hj : j < ds.length), i < j ∧
        overlapPred ds[i] ds[j] = true ∧
        x = (ds[i].package, ds[j].package, overlapDur ds[i] ds[j]) := by
  induction ds with
  | nil => intro x hx; simp [computeOverlaps] at hx
  | cons d rest ih =>
    intro x hx
    unfold computeOverlaps at hx
    rcases List.mem_append.mp hx with hx | hx
    · rcases List.mem_filterMap.mp hx with ⟨d2, hd2, hf⟩
      rcases List.getElem_of_mem hd2 with ⟨jj, hjj, hd2e⟩
      by_cases hpred : overlapPred d d2 = true
      · rw [if_pos hpred] at hf
        injection hf with hf
        refine ⟨0, jj + 1, by simp, by simpa using Nat.succ_lt_succ hjj,
          Nat.succ_pos jj, ?_, ?_⟩
        · simpa [hd2e] using hpred
        · simp only [List.getElem_cons_zero, List.getElem_cons_succ, hd2e]
          exact hf.symm
      · rw [if_neg hpred] at hf
        exact Option.noConfusion hf
    · rcases ih x hx with ⟨ii, jj, hii, hjj, hij, hpred, hx⟩
      refine ⟨ii + 1, jj + 1, by simpa using Nat.succ_lt_succ hii,
        by simpa using Nat.succ_lt_succ hjj, Nat.succ_lt_succ hij, ?_, ?_⟩
      · simpa using hpred
      · simpa using hx

/-- The overlap test is symmetric. -/
theorem overlapPred_symm (a b : PackageDownload) :
    overlapPred a b = overlapPred b a := by
  unfold overlapPred
  cases a.end_time with
  | none => cases b.end_time <;> rfl
  | some e1 =>
    cases b.end_time with
    | none => rfl
    | some e2 =>
      rw [Bool.eq_iff_iff]
      simp only [Bool.and_eq_true, decide_eq_true_eq]
      constructor
      · rintro ⟨⟨⟨h1, h2⟩, h3⟩, h4⟩; exact ⟨⟨⟨h2, h1⟩, h4⟩, h3⟩
      · rintro ⟨⟨⟨h1, h2⟩, h3⟩, h4⟩; exact ⟨⟨⟨h2, h1⟩, h4⟩, h3⟩

/-- The overlap duration is symmetric. -/
theorem overlapDur_symm (a b : PackageDownload) :
    overlapDur a b = overlapDur b a := by
  unfold overlapDur
  cases a.end_time with
  | none => cases b.end_time <;> rfl
  | some e1 =>
    cases b.end_time with
    | none => rfl
    | some e2 =>
      show (min e1 e2 - max a.start_time b.start_time) * 1000 =
        (min e2 e1 - max b.start_time a.start_time) * 1000
      rw [min_comm, max_comm]

/-- For downloads whose end time is never the zero sentinel (true of
all reachable analyzer states), the source's overlap test coincides
with the claim's condition: both completed and mutually started before
the other ended. -/
theorem overlapPred_iff_spec (a b : PackageDownload)
    (ha : a.end_time ≠ some 0) (hb : b.end_time ≠ some 0) :
    overlapPred a b = true ↔ overlapSpec a b := by
  unfold overlapPred overlapSpec
  cases hae : a.end_time with
  | none => simp
  | some e1 =>
    cases hbe : b.end_time with
    | none => simp
    | some e2 =>
      simp only [Bool.and_eq_true, decide_eq_true_eq, Option.some.injEq]
      constructor
      · rintro ⟨⟨⟨h1, h2⟩, h3⟩, h4⟩
        exact ⟨e1, e2, rfl, rfl, h3, h4⟩
      · rintro ⟨e1', e2', he1, he2, h3, h4⟩
        subst he1; subst he2
        have he1 : ¬ e1 = 0 := fun hh => ha (by rw [hae, hh])
        have he2 : ¬ e2 = 0 := fun hh => hb (by rw [hbe, hh])
        exact ⟨⟨⟨he1, he2⟩, h3⟩, h4⟩

/-- C5. On any trace the analyzer completes, over the start-time-sorted
download list used by `get_timeline`: an unordered pair (at positions
`i < j`) is reported as overlapping iff both downloads are completed and
`start1 < end2 ∧ start2 < end1`, with duration
`(min(end1,end2) - max(start1,start2)) * 1000`; every overlapping pair
is reported, only overlapping pairs are reported, and the overlap
verdict and duration are symmetric in the two downloads. -/
theorem overlap_reporting_sound_complete_symmetric (lines : List String) :
    match runAnalyzer lines with
    | .error _ => True
    | .ok st =>
      (∀ (i j : Nat) (hi : i < (sortDownloads st.downloadsValues).length)
          (hj : j < (sortDownloads st.downloadsValues).length), i < j →
        ((overlapPred (sortDownloads st.downloadsValues)[i]
            (sortDownloads st.downloadsValues)[j] = true) ↔
          overlapSpec (sortDownloads st.downloadsValues)[i]
            (sortDownloads st.downloadsValues)[j]) ∧
        (overlapPred (sortDownloads st.downloadsValues)[i]
            (sortDownloads st.downloadsValues)[j] = true →
          ((sortDownloads st.downloadsValues)[i].package,
           (sortDownloads st.downloadsValues)[j].package,
           overlapDur (sortDownloads st.downloadsValues)[i]
             (sortDownloads st.downloadsValues)[j]) ∈
            computeOverlaps (sortDownloads st.downloadsValues))) ∧
      (∀ x ∈ computeOverlaps (sortDownloads st.downloadsValues),
        ∃ (i j : Nat) (hi : i < (sortDownloads st.downloadsValues).length)
          (hj : j < (sortDownloads st.downloadsValues).length), i < j ∧
          overlapPred (sortDownloads st.downloadsValues)[i]
            (sortDownloads st.downloadsValues)[j] = true ∧
          x = ((sortDownloads st.downloadsValues)[i].package,
               (sortDownloads st.downloadsValues)[j].package,
               overlapDur (sortDownloads st.downloadsValues)[i]
                 (sortDownloads st.downloadsValues)[j])) ∧
      (∀ a b : PackageDownload,
        overlapPred a b = overlapPred b a ∧ overlapDur a b = overlapDur b a) := by
  split
  next => trivial
  next st hst =>
    have hnz : ∀ d ∈ sortDownloads st.downloadsValues, d.end_time ≠ some 0 := by
      intro d hd
      have hd2 : d ∈ st.downloadsValues :=
        ((stableSort_perm _ _).mem_iff).mp hd
      rcases List.mem_map.mp hd2 with ⟨p, hp, hpd⟩
      rw [← hpd]
      exact runAnalyzer_no_zero_end lines st hst p hp
    refine ⟨?_, computeOverlaps_sound _, fun a b =>
      ⟨overlapPred_symm a b, overlapDur_symm a b⟩⟩
    intro i j hi hj hij
    exact ⟨overlapPred_iff_spec _ _ (hnz _ (List.getElem_mem _))
        (hnz _ (List.getElem_mem _)),
      computeOverlaps_complete _ i j hi hj hij⟩

/-- Start-event counts add over list concatenation. -/
theorem startsOf_append (sid : Nat) (l1 l2 : List DownloadEvent) :
    startsOf sid (l1 ++ l2) = startsOf sid l1 + startsOf sid l2 :=
  List.countP_append _ _ _

/-- The size-announcement block can only increase the pending count of
a stream if the line registers that stream. -/
theorem downloadAnnounce_pending (st st' : UVDownloadAnalyzer) (n : Nat)
    (l : String) (sid : Nat) (h : st.downloadAnnounce n l = .ok st') :
    pendingStart sid st' ≤
      pendingStart sid st + (if registersStream sid l = true then 1 else 0) := by
  unfold UVDownloadAnalyzer.downloadAnnounce at h
  unfold registersStream
  cases hm : searchFrom downloadingPat l.data with
  | none =>
    rw [hm] at h
    injection h with h; subst h
    exact Nat.le_add_right _ _
  | some caps =>
    rw [hm] at h
    cases caps with
    | nil => injection h with h; subst h; exact Nat.le_add_right _ _
    | cons pkg caps2 =>
      cases caps2 with
      | nil => injection h with h; subst h; exact Nat.le_add_right _ _
      | cons szg caps3 =>
        cases caps3 with
        | cons x caps4 => injection h with h; subst h; exact Nat.le_add_right _ _
        | nil =>
          dsimp only at h
          cases hf : pyFloat? szg with
          | none => rw [hf] at h; exact Except.noConfusion h
          | some q =>
            rw [hf] at h
            dsimp only at h
            cases hfind : find_stream_for_package (String.mk pkg) with
            | none =>
              rw [hfind] at h
              injection h with h; subst h
              exact Nat.le_add_right _ _
            | some stream_id =>
              rw [hfind] at h
              dsimp only at h
              by_cases hz : stream_id ≠ 0
              · rw [if_pos hz] at h
                injection h with h; subst h
                by_cases hsid : sid = stream_id
                · subst hsid
                  rw [if_pos (by simp [hm, hf, hfind, hz])]
                  unfold pendingStart
                  simp only [dictGet_dictSet_self]
                  exact Nat.succ_le_succ (Nat.zero_le _)
                · unfold pendingStart
                  simp only [dictGet_dictSet_ne _ _ _ _ hsid]
                  exact Nat.le_add_right _ _
              · rw [if_neg hz] at h
                injection h with h; subst h
                exact Nat.le_add_right _ _

/-- The data-frame block never increases the number of start events
plus pending registrations of a stream: a `start` event is emitted only
by consuming the pending zero-sentinel, which the (truthy, nonzero)
timestamp then overwrites. -/
theorem dataFrameStep_start_accounting (st : UVDownloadAnalyzer) (n : Nat)
    (l : String) (ts : ℚ) (hts : ts ≠ 0) (sid : Nat) :
    startsOf sid (st.dataFrameStep n l ts).events +
      pendingStart sid (st.dataFrameStep n l ts) ≤
      startsOf sid st.events + pendingStart sid st := by
  unfold UVDownloadAnalyzer.dataFrameStep
  cases hm : searchFrom dataFramePat l.data with
  | none => exact Nat.le.refl
  | some caps =>
    cases caps with
    | nil => exact Nat.le.refl
    | cons sg caps2 =>
      cases caps2 with
      | cons x caps3 => exact Nat.le.refl
      | nil =>
        cases hget : dictGet (digitsToNat sg) st.downloads with
        | none => simp only [hget]; exact Nat.le.refl
        | some download =>
          simp only [hget]
          by_cases hsid : sid = digitsToNat sg
          · subst hsid
            unfold pendingStart
            simp only [dictGet_dictSet_self, hget]
            by_cases h1 : download.start_time = 0 <;>
              by_cases h2 : pyTruthyOptQ download.end_time = false <;>
                by_cases h3 : hasEndStream l <;>
                  simp [h1, h2, h3, startsOf_append, startsOf, isStartE,
                    List.countP_cons, hts]
          · unfold pendingStart
            simp only [dictGet_dictSet_ne _ _ _ _ hsid, hget]
            by_cases h1 : download.start_time = 0 <;>
              by_cases h2 : pyTruthyOptQ download.end_time = false <;>
                by_cases h3 : hasEndStream l <;>
                  simp [h1, h2, h3, startsOf_append, startsOf, isStartE,
                    List.countP_cons, Ne.symm hsid]

/-- One `parse_line` step adds at most one to a stream's start-event
count plus pending-registration count, and only when the line registers
that stream. -/
theorem parse_line_start_accounting (st st' : UVDownloadAnalyzer) (n : Nat)
    (l : String) (sid : Nat) (h : st.parse_line n l = .ok st') :
    startsOf sid st'.events + pendingStart sid st' ≤
      startsOf sid st.events + pendingStart sid st +
        (if registersStream sid l = true then 1 else 0) := by
  unfold UVDownloadAnalyzer.parse_line at h
  cases hts : UVDownloadAnalyzer.parse_timestamp l with
  | error e => rw [hts] at h; exact Except.noConfusion h
  | ok ts =>
    rw [hts] at h
    cases hda : st.downloadAnnounce n l with
    | error e => rw [hda] at h; exact Except.noConfusion h
    | ok st2 =>
      rw [hda] at h
      have hev : st2.events = st.events := downloadAnnounce_events st st2 n l hda
      have hpend := downloadAnnounce_pending st st2 n l sid hda
      cases ts with
      | none =>
        injection h with h; subst h
        rw [hev]
        omega
      | some t =>
        have h2 : (if t = 0 then Except.ok st2
            else Except.ok (st2.dataFrameStep n l t)) = Except.ok st' := h
        by_cases h0 : t = 0
        · rw [if_pos h0] at h2
          injection h2 with h2; subst h2
          rw [hev]
          omega
        · rw [if_neg h0] at h2
          injection h2 with h2; subst h2
          have hdf := dataFrameStep_start_accounting st2 n l t h0 sid
          rw [hev] at hdf
          omega

/-- Along a whole trace, a stream's start-event count plus pending
count grows by at most the number of lines registering the stream. -/
theorem runAnalyzerFrom_start_accounting (sid : Nat) (lines : List String) :
    ∀ (st0 : UVDownloadAnalyzer) (n : Nat) (st : UVDownloadAnalyzer),
      runAnalyzerFrom st0 n lines = .ok st →
      startsOf sid st.events + pendingStart sid st ≤
        startsOf sid st0.events + pendingStart sid st0 + regCount sid lines := by
  induction lines with
  | nil =>
    intro st0 n st h
    injection h with h; subst h
    simp [regCount]
  | cons l rest ih =>
    intro st0 n st h
    unfold runAnalyzerFrom at h
    cases hpl : st0.parse_line n l with
    | error e => rw [hpl] at h; exact Except.noConfusion h
    | ok st1 =>
      rw [hpl] at h
      have h1 := parse_line_start_accounting st0 st1 n l sid hpl
      have h2 := ih st1 (n + 1) st h
      have hreg : regCount sid (l :: rest) =
          regCount sid rest + (if registersStream sid l = true then 1 else 0) := by
        simp [regCount, List.countP_cons]
      omega

/-- A parsed float capture is nonnegative. -/
theorem pyFloat?_nonneg (g : List Char) (q : ℚ) (h : pyFloat? g = some q) :
    0 ≤ q := by
  unfold pyFloat? at h
  split at h
  · injection h with h
    subst h
    positivity
  · exact Option.noConfusion h

/-- A successfully extracted timestamp is nonnegative. -/
theorem parse_timestamp_nonneg (l : String) (q : ℚ)
    (h : UVDownloadAnalyzer.parse_timestamp l = .ok (some q)) : 0 ≤ q := by
  unfold UVDownloadAnalyzer.parse_timestamp at h
  repeat' split at h
  all_goals first
    | exact Except.noConfusion h
    | (injection h with h
       first
        | exact Option.noConfusion h
        | (injection h with h; subst h
           exact pyFloat?_nonneg _ _ (by assumption)))

/-- The data-frame block emits `start` events only with the (positive)
timestamp of the line. -/
theorem dataFrameStep_start_pos (st : UVDownloadAnalyzer) (n : Nat) (l : String)
    (ts : ℚ) (hts : 0 < ts)
    (hP : ∀ e ∈ st.events, isStartE e = true → 0 < e.timestamp) :
    ∀ e ∈ (st.dataFrameStep n l ts).events, isStartE e = true → 0 < e.timestamp := by
  unfold UVDownloadAnalyzer.dataFrameStep
  cases hm : searchFrom dataFramePat l.data with
  | none => exact hP
  | some caps =>
    cases caps with
    | nil => exact hP
    | cons sg caps2 =>
      cases caps2 with
      | cons x caps3 => exact hP
      | nil =>
        cases hget : dictGet (digitsToNat sg) st.downloads with
        | none => simp only [hget]; exact hP
        | some download =>
          simp only [hget]
          intro e he hs
          by_cases h1 : download.start_time = 0
          · by_cases h3 : hasEndStream l
            · simp only [h1, h3, if_true, List.mem_append, List.mem_singleton] at he
              rcases he with (he | he) | he
              · exact hP e he hs
              · subst he; exact hts
              · subst he; exact absurd hs (by simp [isStartE])
            · simp [h1, h3, List.mem_append] at he
              rcases he with he | he
              · exact hP e he hs
              · subst he; exact hts
          · by_cases h3 : hasEndStream l
            · simp [h1, h3, List.mem_append] at he
              rcases he with he | he
              · exact hP e he hs
              · subst he; exact absurd hs (by simp [isStartE])
            · simp [h1, h3] at he
              exact hP e he hs

/-- One `parse_line` step preserves positivity of all `start`-event
timestamps. -/
theorem parse_line_start_pos (st st' : UVDownloadAnalyzer) (n : Nat) (l : String)
    (h : st.parse_line n l = .ok st')
    (hP : ∀ e ∈ st.events, isStartE e = true → 0 < e.timestamp) :
    ∀ e ∈ st'.events, isStartE e = true → 0 < e.timestamp := by
  unfold UVDownloadAnalyzer.parse_line at h
  cases hts : UVDownloadAnalyzer.parse_timestamp l with
  | error e => rw [hts] at h; exact Except.noConfusion h
  | ok ts =>
    rw [hts] at h
    cases hda : st.downloadAnnounce n l with
    | error e => rw [hda] at h; exact Except.noConfusion h
    | ok st2 =>
      rw [hda] at h
      have hev : st2.events = st.events := downloadAnnounce_events st st2 n l hda
      have hP2 : ∀ e ∈ st2.events, isStartE e = true → 0 < e.timestamp := by
        rw [hev]; exact hP
      cases ts with
      | none => injection h with h; subst h; exact hP2
      | some t =>
        have h2 : (if t = 0 then Except.ok st2
            else Except.ok (st2.dataFrameStep n l t)) = Except.ok st' := h
        by_cases h0 : t = 0
        · rw [if_pos h0] at h2
          injection h2 with h2; subst h2; exact hP2
        · rw [if_neg h0] at h2
          injection h2 with h2; subst h2
          have htpos : 0 < t :=
            lt_of_le_of_ne (parse_timestamp_nonneg l t hts) (Ne.symm h0)
          exact dataFrameStep_start_pos st2 n l t htpos hP2

/-- Positivity of `start`-event timestamps holds in every reachable
analyzer state. -/
theorem runAnalyzerFrom_start_pos (lines : List String) : ∀ (st0 st : UVDownloadAnalyzer)
    (n : Nat), runAnalyzerFrom st0 n lines = .ok st →
    (∀ e ∈ st0.events, isStartE e = true → 0 < e.timestamp) →
    ∀ e ∈ st.events, isStartE e = true → 0 < e.timestamp := by
  induction lines with
  | nil =>
    intro st0 st n h hP
    injection h with h; subst h; exact hP
  | cons l rest ih =>
    intro st0 st n h hP
    unfold runAnalyzerFrom at h
    cases hpl : st0.parse_line n l with
    | error e => rw [hpl] at h; exact Except.noConfusion h
    | ok st1 =>
      rw [hpl] at h
      exact ih st1 st (n + 1) h (parse_line_start_pos st0 st1 n l hpl hP)

/-- C9 amended. For every stream id, at most one `start` event is
emitted over the whole trace provided the trace registers that stream
at most once (at most one recognized size-announcement line for it):
the start event fires only while the download's start time holds the
unset sentinel `0.0`, and the first processed data frame replaces it
with a strictly positive timestamp — indeed every emitted `start` event
carries a strictly positive timestamp — so only a re-registration
(which resets the sentinel) can give rise to a second start. -/
theorem at_most_one_start_per_stream (lines : List String) (sid : Nat)
    (hreg : regCount sid lines ≤ 1) :
    match runAnalyzer lines with
    | .error _ => True
    | .ok st => startsOf sid st.events ≤ 1 ∧
        ∀ e ∈ st.events, isStartE e = true → 0 < e.timestamp := by
  split
  next => trivial
  next st hst =>
    constructor
    · have h := runAnalyzerFrom_start_accounting sid lines UVDownloadAnalyzer.init 1 st hst
      have hinit : startsOf sid UVDownloadAnalyzer.init.events = 0 := rfl
      have hinitp : pendingStart sid UVDownloadAnalyzer.init = 0 := rfl
      omega
    · exact runAnalyzerFrom_start_pos lines UVDownloadAnalyzer.init st 1 hst
        (by intro e he; simp [UVDownloadAnalyzer.init] at he)

/-- C9 witness: the three-download scenario trace registers each stream
once, so each stream has at most one start event, all at positive
timestamps. -/
theorem at_most_one_start_per_stream_witness :
    (match runAnalyzer scenarioLines with
     | .error _ => True
     | .ok st => startsOf 7 st.events ≤ 1 ∧
         ∀ e ∈ st.events, isStartE e = true → 0 < e.timestamp) :=
  at_most_one_start_per_stream scenarioLines 7 (by with_unfolding_all decide)

/-- C9 counterexample. A second `Downloading torch` line re-registers
stream 7, resetting the start-time sentinel to `0.0`, and the next data
frame emits a second `start` event for the same stream: over the whole
trace the stream has two start events, refuting the claim as stated. -/
theorem second_start_event_on_reregistered_stream :
    (runAnalyzer reRegisterLines).map (fun st => startsOf 7 st.events) = .ok 2 := by
  with_unfolding_all decide

/-! ## The concurrency sweep -/

/-- The sweep's running maximum never decreases. -/
theorem sweep_max_mono (L : List DownloadEvent) : ∀ (mx cur : Int),
    mx ≤ (L.foldl sweepStep (mx, cur)).1 := by
  induction L with
  | nil => intro mx cur; exact le_refl mx
  | cons e L ih =>
    intro mx cur
    show mx ≤ (L.foldl sweepStep (sweepStep (mx, cur) e)).1
    unfold sweepStep
    by_cases hs : e.event_type = "start"
    · simp only [hs, if_true]
      exact le_trans (le_max_left mx (cur + 1)) (ih _ _)
    · by_cases he : e.event_type = "end" <;> simp only [hs, he, if_true, if_false] <;>
        exact ih _ _

/-- Sweep lower bound: the final running maximum dominates the running
counter after any prefix of the event list. -/
theorem sweep_ge_prefix_delta (P : List DownloadEvent) : ∀ (L : List DownloadEvent)
    (mx cur : Int), (∃ t, L = P ++ t) → cur ≤ mx →
    cur + deltaEvs P ≤ (L.foldl sweepStep (mx, cur)).1 := by
  induction P with
  | nil =>
    intro L mx cur _ hcm
    have : deltaEvs [] = 0 := rfl
    rw [this, add_zero]
    exact le_trans hcm (sweep_max_mono L mx cur)
  | cons e P ih =>
    intro L mx cur hpre hcm
    obtain ⟨t, ht⟩ := hpre
    subst ht
    show cur + deltaEvs (e :: P) ≤
      ((P ++ t).foldl sweepStep (sweepStep (mx, cur) e)).1
    by_cases hs : e.event_type = "start"
    · rw [show sweepStep (mx, cur) e = (max mx (cur + 1), cur + 1) from by
        simp [sweepStep, hs]]
      have hP := ih (P ++ t) (max mx (cur + 1)) (cur + 1) ⟨t, rfl⟩
        (le_max_right mx (cur + 1))
      have hde : deltaEvs (e :: P) = deltaEvs P + 1 := by
        unfold deltaEvs
        rw [List.countP_cons, List.countP_cons]
        have h1 : isStartE e = true := by simp [isStartE, hs]
        have h2 : isEndE e = false := by simp [isEndE, hs]
        rw [h1, h2]
        simp
        ring
      rw [hde]
      omega
    · by_cases he : e.event_type = "end"
      · rw [show sweepStep (mx, cur) e = (mx, cur - 1) from by
          simp [sweepStep, hs, he]]
        have hP := ih (P ++ t) mx (cur - 1) ⟨t, rfl⟩ (by omega)
        have hde : deltaEvs (e :: P) = deltaEvs P - 1 := by
          unfold deltaEvs
          rw [List.countP_cons, List.countP_cons]
          have h1 : isStartE e = false := by simp [isStartE, hs]
          have h2 : isEndE e = true := by simp [isEndE, he]
          rw [h1, h2]
          simp
          ring
        rw [hde]
        omega
      · rw [show sweepStep (mx, cur) e = (mx, cur) from by
          simp [sweepStep, hs, he]]
        have hP := ih (P ++ t) mx cur ⟨t, rfl⟩ hcm
        have hde : deltaEvs (e :: P) = deltaEvs P := by
          unfold deltaEvs
          rw [List.countP_cons, List.countP_cons]
          have h1 : isStartE e = false := by simp [isStartE, hs]
          have h2 : isEndE e = false := by simp [isEndE, he]
          rw [h1, h2]
          simp
        rw [hde]
        omega

/-- Splitting the start/end difference of an event list at one stream. -/
theorem delta_filter_split (s0 : Nat) (P : List DownloadEvent) :
    deltaEvs P = ((startsOf s0 P : Int) - (endsOf s0 P : Int)) +
      deltaEvs (P.filter (fun e => !(decide (e.stream_id = s0)))) := by
  induction P with
  | nil => rfl
  | cons e t ih =>
    unfold deltaEvs startsOf endsOf at ih ⊢
    rw [List.filter_cons]
    by_cases hst : e.stream_id = s0 <;>
      by_cases hs : isStartE e = true <;>
        by_cases he2 : isEndE e = true <;>
          simp [List.countP_cons, hst, hs, he2,
            Bool.not_eq_true] at ih ⊢ <;>
          omega

/-- A stream has no start events among the events of other streams. -/
theorem countKind_filter_self (κ : DownloadEvent → Bool) (s0 : Nat)
    (P : List DownloadEvent) :
    (P.filter (fun e => !(decide (e.stream_id = s0)))).countP
      (fun e => κ e && decide (e.stream_id = s0)) = 0 := by
  rw [List.countP_eq_zero]
  intro a ha
  have h2 := (List.mem_filter.mp ha).2
  simp only [Bool.not_eq_eq_eq_not, Bool.not_true, decide_eq_false_iff_not] at h2
  simp [h2]

/-- Filtering out another stream's events does not change a stream's
kind counts. -/
theorem countKind_filter_other (κ : DownloadEvent → Bool) (s s0 : Nat)
    (hne : s ≠ s0) (P : List DownloadEvent) :
    (P.filter (fun e => !(decide (e.stream_id = s0)))).countP
      (fun e => κ e && decide (e.stream_id = s)) =
      P.countP (fun e => κ e && decide (e.stream_id = s)) := by
  induction P with
  | nil => rfl
  | cons e t ih =>
    rw [List.filter_cons]
    by_cases hp : e.stream_id = s0
    · have hes : e.stream_id ≠ s := by rw [hp]; exact Ne.symm hne
      simp [hp, List.countP_cons, hes, ih, Ne.symm hne]
    · simp [hp, List.countP_cons, ih]

/-- An event list in which every stream has at least as many starts as
ends (and only start/end events) has a nonnegative start/end
difference. -/
theorem delta_nonneg_of_balanced : ∀ (N : Nat) (P : List DownloadEvent),
    P.length ≤ N →
    (∀ s, endsOf s P ≤ startsOf s P) → 0 ≤ deltaEvs P := by
  intro N
  induction N with
  | zero =>
    intro P hlen _
    rw [List.length_eq_zero.mp (Nat.le_zero.mp hlen)]
    exact le_refl 0
  | succ N ih =>
    intro P hlen hb
    cases hP : P with
    | nil => exact le_refl 0
    | cons e t =>
      subst hP
      rw [delta_filter_split e.stream_id]
      have hflt : ((e :: t).filter
          (fun x => !(decide (x.stream_id = e.stream_id)))) =
          t.filter (fun x => !(decide (x.stream_id = e.stream_id))) := by
        rw [List.filter_cons]
        simp
      have hlen2 : ((e :: t).filter
          (fun x => !(decide (x.stream_id = e.stream_id)))).length ≤ N := by
        rw [hflt]
        exact le_trans (List.length_filter_le _ _) (Nat.succ_le_succ_iff.mp hlen)
      have hb2 : ∀ s, endsOf s ((e :: t).filter
          (fun x => !(decide (x.stream_id = e.stream_id)))) ≤
          startsOf s ((e :: t).filter
            (fun x => !(decide (x.stream_id = e.stream_id)))) := by
        intro s
        by_cases hss : s = e.stream_id
        · subst hss
          unfold endsOf
          rw [countKind_filter_self]
          exact Nat.zero_le _
        · unfold startsOf endsOf
          rw [countKind_filter_other _ _ _ hss, countKind_filter_other _ _ _ hss]
          exact hb s
      have hrec := ih _ hlen2 hb2
      have hs0 := hb e.stream_id
      omega

/-- An event list in which every stream is balanced, and each stream of
the pairwise-distinct list `T` has a surplus start, has a start/end
difference of at least the size of `T`. -/
theorem delta_ge_card (T : List Nat) : ∀ (P : List DownloadEvent), T.Nodup →
    (∀ s, endsOf s P ≤ startsOf s P) →
    (∀ s ∈ T, endsOf s P + 1 ≤ startsOf s P) →
    (T.length : Int) ≤ deltaEvs P := by
  induction T with
  | nil =>
    intro P _ hb _
    exact delta_nonneg_of_balanced P.length P (le_refl _) hb
  | cons s0 T' ih =>
    intro P hnd hb hbT
    rw [delta_filter_split s0 P]
    have hb2 : ∀ s, endsOf s (P.filter (fun e => !(decide (e.stream_id = s0)))) ≤
        startsOf s (P.filter (fun e => !(decide (e.stream_id = s0)))) := by
      intro s
      by_cases hss : s = s0
      · subst hss
        unfold endsOf
        rw [countKind_filter_self]
        exact Nat.zero_le _
      · unfold startsOf endsOf
        rw [countKind_filter_other _ _ _ hss, countKind_filter_other _ _ _ hss]
        exact hb s
    have hbT2 : ∀ s ∈ T',
        endsOf s (P.filter (fun e => !(decide (e.stream_id = s0)))) + 1 ≤
        startsOf s (P.filter (fun e => !(decide (e.stream_id = s0)))) := by
      intro s hsT
      have hss : s ≠ s0 := by
        intro hh
        subst hh
        exact (List.nodup_cons.mp hnd).1 hsT
      unfold startsOf endsOf
      rw [countKind_filter_other _ _ _ hss, countKind_filter_other _ _ _ hss]
      exact hbT s (List.mem_cons_of_mem s0 hsT)
    have hrec := ih _ (List.nodup_cons.mp hnd).2 hb2 hbT2
    have hs0 := hbT s0 (List.mem_cons_self s0 T')
    have hlen : ((s0 :: T').length : Int) = (T'.length : Int) + 1 := by
      push_cast [List.length_cons]
      ring
    omega

/-- Stable insertion preserves sortedness by the key. -/
theorem stableInsert_pairwise {α : Type} (key : α → ℚ) (x : α) : ∀ (l : List α),
    List.Pairwise (fun a b => key a ≤ key b) l →
    List.Pairwise (fun a b => key a ≤ key b)
      (stableInsert (fun a b => key a < key b) x l) := by
  intro l
  induction l with
  | nil => intro _; exact List.pairwise_singleton _ x
  | cons y ys ih =>
    intro h
    rcases List.pairwise_cons.mp h with ⟨hy, hys⟩
    unfold stableInsert
    by_cases hl : key y < key x
    · rw [if_pos (by simpa using hl)]
      apply List.pairwise_cons.mpr
      refine ⟨?_, ih hys⟩
      intro z hz
      rcases List.mem_cons.mp (((stableInsert_perm _ x ys).mem_iff).mp hz) with hz | hz
      · rw [hz]; exact le_of_lt hl
      · exact hy z hz
    · rw [if_neg (by simpa using hl)]
      apply List.pairwise_cons.mpr
      refine ⟨?_, h⟩
      intro z hz
      rcases List.mem_cons.mp hz with hz | hz
      · rw [hz]; exact le_of_not_lt hl
      · exact le_trans (le_of_not_lt hl) (hy z hz)

/-- The stable sort sorts by the key. -/
theorem stableSort_pairwise {α : Type} (key : α → ℚ) (l : List α) :
    List.Pairwise (fun a b => key a ≤ key b)
      (stableSort (fun a b => key a < key b) l) := by
  induction l with
  | nil => exact List.Pairwise.nil
  | cons x xs ih => exact stableInsert_pairwise key x _ ih

/-- In a key-sorted list, every member whose key is at most `m` lies in
the `takeWhile (key ≤ m)` prefix. -/
theorem mem_takeWhile_of_sorted {α : Type} (key : α → ℚ) (m : ℚ) :
    ∀ (L : List α), List.Pairwise (fun a b => key a ≤ key b) L →
    ∀ e ∈ L, key e ≤ m → e ∈ L.takeWhile (fun x => decide (key x ≤ m)) := by
  intro L
  induction L with
  | nil => intro _ e he; exact absurd he (List.not_mem_nil e)
  | cons a t ih =>
    intro h e he hm
    rcases List.pairwise_cons.mp h with ⟨ha, ht⟩
    rcases List.mem_cons.mp he with he | he
    · subst he
      rw [List.takeWhile_cons, if_pos (by simpa using hm)]
      exact List.mem_cons_self _ _
    · have hae : key a ≤ m := le_trans (ha e he) hm
      rw [List.takeWhile_cons, if_pos (by simpa using hae)]
      exact List.mem_cons_of_mem a (ih ht e he hm)

/-- Boolean guard unpacking: `!(A && B) || C` with `A` and `B` true
forces `C`. -/
theorem bool_guard_imp {A B C : Bool} (h : (!(A && B) || C) = true)
    (hA : A = true) (hB : B = true) : C = true := by
  subst hA
  subst hB
  simpa using h

/-- A nonempty download list has a member of maximal start time. -/
theorem exists_max_start : ∀ (S : List PackageDownload), S ≠ [] →
    ∃ dm ∈ S, ∀ a ∈ S, a.start_time ≤ dm.start_time := by
  intro S
  induction S with
  | nil => intro h; exact absurd rfl h
  | cons d S' ih =>
    intro _
    by_cases hS' : S' = []
    · subst hS'
      refine ⟨d, List.mem_cons_self d [], ?_⟩
      intro a ha
      rcases List.mem_cons.mp ha with ha | ha
      · rw [ha]
      · exact absurd ha (List.not_mem_nil a)
    · obtain ⟨dm, hdm, hmax⟩ := ih hS'
      by_cases hcmp : d.start_time ≤ dm.start_time
      · refine ⟨dm, List.mem_cons_of_mem d hdm, ?_⟩
        intro a ha
        rcases List.mem_cons.mp ha with ha | ha
        · rw [ha]; exact hcmp
        · exact hmax a ha
      · refine ⟨d, List.mem_cons_self d S', ?_⟩
        intro a ha
        rcases List.mem_cons.mp ha with ha | ha
        · rw [ha]
        · exact le_trans (hmax a ha) (le_of_not_le hcmp)

/-- Events of streams absent from a list contribute no kind counts. -/
theorem countKind_zero_of_not_mem (κ : DownloadEvent → Bool) (s : Nat)
    (L : List DownloadEvent) (h : ∀ e ∈ L, e.stream_id ≠ s) :
    L.countP (fun e => κ e && decide (e.stream_id = s)) = 0 := by
  rw [List.countP_eq_zero]
  intro a ha
  simp [h a ha]

/-- A list is the `take` of its own length from any of its extensions. -/
theorem eq_take_len_of_append {α : Type} (P t L : List α) (h : P ++ t = L) :
    P = L.take P.length := by
  rw [← h, List.take_left]

/-- C6 amended. The computed maximum concurrent download count — the
sweep over `start`/`end` events sorted by elapsed time, incrementing on
`start` (updating a running maximum) and decrementing on `end` — is
never negative; and provided every emitted event is a start or an end,
and in timestamp order no stream ever has more ends than starts (true
when no stream signals `END_STREAM` more often than it starts), it is
at least 1 whenever a `start` event was emitted, and at least the size
of any pairwise-overlapping set of the analyzer's completed downloads
with distinct streams, each having exactly one `start` event (at its
start time) and whose stream's `end` events all carry its end time. -/
theorem maxParallel_lower_bounds (st : UVDownloadAnalyzer) (S : List PackageDownload)
    (hkind : eventsWellKinded st.events = true)
    (hbal : prefixStreamBalanced (sortEvents st.events) = true)
    (hsub : ∀ d ∈ S, d ∈ st.downloadsValues)
    (hstreams : (S.map (fun d => d.stream_id)).Nodup)
    (hover : cliquePairwiseOverlap S = true)
    (hclean : cliqueEventsClean S st.events = true) :
    (0 : Int) ≤ maxParallelOf st.events ∧
    ((∃ e ∈ st.events, isStartE e = true) → (1 : Int) ≤ maxParallelOf st.events) ∧
    (S.length : Int) ≤ maxParallelOf st.events := by
  have hperm : ∀ e : DownloadEvent, e ∈ sortEvents st.events ↔ e ∈ st.events :=
    fun e => (stableSort_perm _ st.events).mem_iff
  have hpw : List.Pairwise (fun a b : DownloadEvent => a.timestamp ≤ b.timestamp)
      (sortEvents st.events) := stableSort_pairwise (fun e => e.timestamp) st.events
  have hkind' : ∀ e ∈ st.events, isStartE e = true ∨ isEndE e = true := by
    intro e he
    simpa using List.all_eq_true.mp hkind e he
  -- prefix balance, for arbitrary cut length and stream
  have hbalLe : ∀ n, n ≤ (sortEvents st.events).length → ∀ s,
      endsOf s ((sortEvents st.events).take n) ≤
      startsOf s ((sortEvents st.events).take n) := by
    intro n hn s
    by_cases hsm : s ∈ (sortEvents st.events).map (fun e => e.stream_id)
    · have h1 := List.all_eq_true.mp hbal n
        (List.mem_range.mpr (Nat.lt_succ_of_le hn))
      have h2 := List.all_eq_true.mp h1 s hsm
      simpa using h2
    · have hz : ∀ e ∈ (sortEvents st.events).take n, e.stream_id ≠ s := by
        intro e he hh
        exact hsm (List.mem_map.mpr ⟨e, List.mem_of_mem_take he, hh⟩)
      unfold endsOf
      rw [countKind_zero_of_not_mem _ _ _ hz]
      exact Nat.zero_le _
  have hbal' : ∀ n s, endsOf s ((sortEvents st.events).take n) ≤
      startsOf s ((sortEvents st.events).take n) := by
    intro n s
    by_cases hn : n ≤ (sortEvents st.events).length
    · exact hbalLe n hn s
    · rw [List.take_of_length_le (le_of_not_le hn)]
      have h := hbalLe (sortEvents st.events).length (le_refl _) s
      rwa [List.take_length] at h
  -- part 0: nonnegativity
  have hpart0 : (0 : Int) ≤ maxParallelOf st.events :=
    sweep_max_mono (sortEvents st.events) 0 0
  refine ⟨hpart0, ?_, ?_⟩
  -- part 1: at least one when a start exists
  · rintro ⟨e, he, hse⟩
    have heL : e ∈ sortEvents st.events := (hperm e).mpr he
    cases hL : sortEvents st.events with
    | nil => rw [hL] at heL; exact absurd heL (List.not_mem_nil e)
    | cons e0 L' =>
      have he0 : e0 ∈ st.events := by
        rw [← hperm e0, hL]
        exact List.mem_cons_self e0 L'
      have he0start : isStartE e0 = true := by
        rcases hkind' e0 he0 with h | h
        · exact h
        · exfalso
          have hb1 := hbal' 1 e0.stream_id
          rw [hL] at hb1
          have hsz : startsOf e0.stream_id ((e0 :: L').take 1) = 0 := by
            have hne : isStartE e0 = false := by
              unfold isEndE at h
              unfold isStartE
              simp only [decide_eq_true_eq] at h
              simp [h]
            simp [startsOf, List.countP_cons, hne]
          have hez : endsOf e0.stream_id ((e0 :: L').take 1) = 1 := by
            simp [endsOf, List.countP_cons, h]
          omega
      have hdelta1 : deltaEvs [e0] = 1 := by
        have hne : isEndE e0 = false := by
          unfold isStartE at he0start
          unfold isEndE
          simp only [decide_eq_true_eq] at he0start
          simp [he0start]
        simp [deltaEvs, List.countP_cons, he0start, hne]
      have hsw := sweep_ge_prefix_delta [e0] (sortEvents st.events) 0 0
        ⟨L', by rw [hL]; rfl⟩ (le_refl 0)
      rw [hdelta1] at hsw
      simpa using hsw
  -- part 2: the clique bound
  · by_cases hS : S = []
    · subst hS
      simpa using hpart0
    · obtain ⟨dm, hdmS, hmaxS⟩ := exists_max_start S hS
      obtain ⟨t, ht⟩ :=  List.takeWhile_prefix
        (fun x : DownloadEvent => decide (x.timestamp ≤ dm.start_time))
        (l := sortEvents st.events)
      -- the prefix of events up to the latest clique start
      have htake : ((sortEvents st.events).takeWhile
          (fun x => decide (x.timestamp ≤ dm.start_time))) =
          (sortEvents st.events).take
            ((sortEvents st.events).takeWhile
              (fun x => decide (x.timestamp ≤ dm.start_time))).length :=
        eq_take_len_of_append _ t _ ht
      -- clique facts from the cleanliness hypothesis
      have hcleanS := List.all_eq_true.mp hclean
      have hoverS := List.all_eq_true.mp hover
      have hbT : ∀ s ∈ S.map (fun d => d.stream_id),
          endsOf s ((sortEvents st.events).takeWhile
            (fun x => decide (x.timestamp ≤ dm.start_time))) + 1 ≤
          startsOf s ((sortEvents st.events).takeWhile
            (fun x => decide (x.timestamp ≤ dm.start_time))) := by
        intro s hsT
        rcases List.mem_map.mp hsT with ⟨d, hdS, hds⟩
        subst hds
        rcases Bool.and_eq_true_iff.mp (hcleanS d hdS) with ⟨hc12, hc3⟩
        rcases Bool.and_eq_true_iff.mp hc12 with ⟨hc1, hc2⟩
        have hc1' : startsOf d.stream_id st.events = 1 := by simpa using hc1
        -- the start event of d lies in the prefix
        have hstart_mem : ∃ e ∈ (sortEvents st.events).takeWhile
            (fun x => decide (x.timestamp ≤ dm.start_time)),
            (isStartE e && decide (e.stream_id = d.stream_id)) = true := by
          have hpos : 0 < startsOf d.stream_id st.events := by omega
          rcases List.countP_pos_iff.mp hpos with ⟨e, he, hpe⟩
          rcases Bool.and_eq_true_iff.mp hpe with ⟨hes, hestr⟩
          have hets : e.timestamp = d.start_time := by
            have := bool_guard_imp (List.all_eq_true.mp hc2 e he) hes hestr
            simpa using this
          have hele : e.timestamp ≤ dm.start_time := by
            rw [hets]
            exact hmaxS d hdS
          refine ⟨e, ?_, hpe⟩
          exact mem_takeWhile_of_sorted (fun x => x.timestamp) dm.start_time
            (sortEvents st.events) hpw e ((hperm e).mpr he) hele
        have hstart_pos : 0 < startsOf d.stream_id
            ((sortEvents st.events).takeWhile
              (fun x => decide (x.timestamp ≤ dm.start_time))) :=
          List.countP_pos_iff.mpr hstart_mem
        -- no end event of d's stream lies in the prefix
        have hend_zero : endsOf d.stream_id
            ((sortEvents st.events).takeWhile
              (fun x => decide (x.timestamp ≤ dm.start_time))) = 0 := by
          rw [endsOf, List.countP_eq_zero]
          intro e heP hpe
          rcases Bool.and_eq_true_iff.mp hpe with ⟨hee, hestr⟩
          have heE : e ∈ st.events := by
            rw [← hperm e, ← ht]
            exact List.mem_append_left t heP
          have hdend : d.end_time = some e.timestamp := by
            have := bool_guard_imp (List.all_eq_true.mp hc3 e heE) hee hestr
            simpa using this
          have hets : e.timestamp ≤ dm.start_time := by
            simpa using List.mem_takeWhile_imp heP
          have hov := List.all_eq_true.mp (hoverS dm hdmS) d hdS
          rw [hdend] at hov
          simp only [decide_eq_true_eq] at hov
          exact absurd hets (not_le.mpr hov)
        omega
      have hcard := delta_ge_card (S.map (fun d => d.stream_id))
        ((sortEvents st.events).takeWhile
          (fun x => decide (x.timestamp ≤ dm.start_time)))
        hstreams
        (by intro s; rw [htake]; exact hbal' _ s)
        hbT
      have hsw := sweep_ge_prefix_delta
        ((sortEvents st.events).takeWhile
          (fun x => decide (x.timestamp ≤ dm.start_time)))
        (sortEvents st.events) 0 0 ⟨t, ht.symm⟩ (le_refl 0)
      rw [List.length_map] at hcard
      have hmaxdef : maxParallelOf st.events =
          ((sortEvents st.events).foldl sweepStep ((0 : Int), (0 : Int))).1 := rfl
      rw [← hmaxdef] at hsw
      omega

/-- C6 witness: the three-download scenario — all events well-kinded
and stream-balanced, and the three downloads overlap pairwise on
distinct streams, so the computed maximum concurrency is at least 3. -/
theorem maxParallel_lower_bounds_witness :
    (0 : Int) ≤ maxParallelOf scenarioState.events ∧
    ((∃ e ∈ scenarioState.events, isStartE e = true) →
      (1 : Int) ≤ maxParallelOf scenarioState.events) ∧
    ((scenarioState.downloadsValues.length : Int) ≤
      maxParallelOf scenarioState.events) :=
  maxParallel_lower_bounds scenarioState scenarioState.downloadsValues
    (by with_unfolding_all decide)
    (by with_unfolding_all decide)
    (fun d hd => hd)
    (by with_unfolding_all decide)
    (by with_unfolding_all decide)
    (by with_unfolding_all decide)

/-- C6 counterexample. On a trace where stream 7 signals `END_STREAM`
twice, the sweep decrements twice for one increment and undercounts:
numpy (stream 11) and scipy (stream 9) are completed, pairwise
overlapping downloads on distinct streams — a set of size 2 — yet the
computed maximum concurrency is 1. -/
theorem max_concurrency_undercounts_on_duplicate_end :
    (runAnalyzer doubleEndLines).map (fun st => maxParallelOf st.events) =
      .ok 1 ∧
    (runAnalyzer doubleEndLines).map (fun st =>
      match dictGet 11 st.downloads, dictGet 9 st.downloads with
      | some dn, some ds =>
        cliquePairwiseOverlap [dn, ds] &&
          decide (dn ∈ st.downloadsValues) && decide (ds ∈ st.downloadsValues) &&
          decide (dn.stream_id ≠ ds.stream_id)
      | _, _ => false) = .ok true := by
  exact ⟨by with_unfolding_all decide, by with_unfolding_all decide⟩
